import Mathlib

/-!
# PrivateVoiceBot: the registry of private voice channels

A shallow embedding of `main.go`: the in-memory registry `channels`, the chat-command
handler `messageCreate` with `makeNewPrivateVoice`, the voice-presence handler
`VoiceStateUpdate` and the body of the ticker sweep in `main`.

Conventions of the embedding.

* A Go string is its sequence of bytes (`GoString`), so `len` is `List.length` and
  indexing yields a byte.
* The map `channels` is an association list of pairwise distinct keys. A `range` over
  the map visits the entries in list order; Go leaves that order unspecified, so
  statements are made for every list. The one loop whose outcome depends on the order
  (the scan of an empty channel in `VoiceStateUpdate`) takes the visiting order as an
  argument.
* A handler returns `none` when the Go code panics (nil dereference, index out of range,
  `checkError`), which ends the process; otherwise it returns the new registry together
  with the platform calls it issued, oldest first. Output on stdout is not modelled.
* Handlers are run one at a time, and the clock does not advance while one of them runs.
* `int` is the 64-bit Go `int`: `addInt` wraps around.
-/

namespace PrivateVoiceBot

/-- A Go string: its bytes. -/
abbrev GoString := List Nat

/-- The bytes of an ASCII string literal of the source. -/
def lit (s : String) : GoString := s.toList.map Char.toNat

/-- Go `int` addition on a 64-bit platform (two's complement wrap-around). -/
def addInt (a b : Int) : Int := (a + b + 2 ^ 63) % 2 ^ 64 - 2 ^ 63

/-- Type for voice channels in guilds made with this bot. -/
structure voiceChannel where
  GuildID : GoString
  ChannelID : GoString
  OwnerID : GoString
  Name : GoString
  OPs : List GoString
  Joined : Bool
  Timestamp : Int
deriving DecidableEq, Repr

/-- The global `channels`, a `map[string]*voiceChannel`. -/
abbrev Registry := List (GoString × voiceChannel)

/-- The keys of the map. -/
def keys (m : Registry) : List GoString := m.map Prod.fst

/-- Go `channels[k]`: the entry stored under `k`, `none` for the nil pointer of a missing key. -/
def mapGet : Registry → GoString → Option voiceChannel
  | [], _ => none
  | (k', r) :: rest, k => if k' = k then some r else mapGet rest k

/-- Go `delete(channels, k)`. -/
def mapDelete (m : Registry) (k : GoString) : Registry := m.filter (fun e => e.1 ≠ k)

/-- Go `channels[k] = r`. -/
def mapSet (m : Registry) (k : GoString) (r : voiceChannel) : Registry := (k, r) :: mapDelete m k

/-- A write through the pointer `channels[k]`: `none` is the nil dereference of a missing key. -/
def mapModify (f : voiceChannel → voiceChannel) (k : GoString) : Registry → Option Registry
  | [] => none
  | (k', r) :: rest =>
    if k' = k then some ((k', f r) :: rest)
    else match mapModify f k rest with
      | none => none
      | some rest' => some ((k', r) :: rest')

/-- The representation invariant of the map: keys are pairwise distinct, and every record is
stored under its own `ChannelID` (the only insertion, in `makeNewPrivateVoice`, does so). -/
def WF (m : Registry) : Prop := (keys m).Nodup ∧ ∀ e ∈ m, e.2.ChannelID = e.1

instance (m : Registry) : Decidable (WF m) := by unfold WF; infer_instance

/-- The settings read from `settings.ini` and the bot user, fixed for a run. `commandPrefix` is
the global `prefix`, `uID` is `u.ID`, and `ToLower` is `strings.ToLower`. -/
structure Config where
  uID : GoString
  commandPrefix : GoString
  voicePrefix : GoString
  channelDeleteDelay : Int
  ToLower : GoString → GoString

structure User where
  ID : GoString
  Username : GoString
deriving DecidableEq, Repr

structure VoiceState where
  UserID : GoString
  ChannelID : GoString
deriving DecidableEq, Repr

/-- A guild channel; `ChannelType` is the field `Type` of the source. -/
structure Channel where
  ID : GoString
  Name : GoString
  ChannelType : GoString
deriving DecidableEq, Repr

/-- A guild as the session state caches it. -/
structure Guild where
  Channels : List Channel
  VoiceStates : List VoiceState
deriving DecidableEq, Repr

structure Message where
  Author : User
  Content : GoString
  ChannelID : GoString
  Mentions : List User
deriving DecidableEq, Repr

/-- The payload of a voice state update event. -/
structure VoiceStateUpdateEvent where
  GuildID : GoString
  ChannelID : GoString
  UserID : GoString
deriving DecidableEq, Repr

/-- What the platform answers while one event is handled. `channelGuild id` is the `GuildID` of
`state.Channel(id)` and `guild id` is `state.Guild(id)`, both `none` on a cache miss;
`GuildChannelCreate guildID name` is the ID of the created channel, `none` for an error; `now`
is `int(time.Now().Unix())`, taken to be the same at every read while one event is handled. -/
structure Platform where
  channelGuild : GoString → Option GoString
  guild : GoString → Option Guild
  GuildChannelCreate : GoString → GoString → Option GoString
  now : Int

/-- The calls a handler makes on the session. -/
inductive Call where
  | ChannelPermissionSet (channelID targetID targetType : GoString) (allow deny : Nat)
  | ChannelMessageSend (channelID content : GoString)
  | ChannelDelete (channelID : GoString)
  | GuildChannelCreate (guildID name ctype : GoString)
deriving DecidableEq, Repr

/-- The result of a handler that did not panic. -/
structure Out where
  channels : Registry
  calls : List Call
deriving DecidableEq, Repr

/-- Commands users can run. -/
def commands : List GoString :=
  [lit "op", lit "deop", lit "invite", lit "allow", lit "kick", lit "leave", lit "new", lit "delete"]

/-- Get the users in a voice channel. -/
def getUserCountInVoiceChannel (channelID : GoString) : List VoiceState → Nat
  | [] => 0
  | v :: rest =>
    if v.ChannelID = channelID then getUserCountInVoiceChannel channelID rest + 1
    else getUserCountInVoiceChannel channelID rest

/-- Go `strings.Split(s, " ")`. -/
def splitSpace : GoString → List GoString
  | [] => [[]]
  | c :: cs =>
    if c = 32 then [] :: splitSpace cs
    else match splitSpace cs with
      | [] => [[c]]
      | w :: ws => (c :: w) :: ws

/-- Go `strings.Join(elems, " ")`. -/
def joinSpace : List GoString → GoString
  | [] => []
  | [w] => w
  | w :: w' :: ws => w ++ 32 :: joinSpace (w' :: ws)

/-- Takes a command string and explodes it into a slice. -/
def explodeCommand (command : GoString) : List GoString := splitSpace command

/-- Go `string(b)` for a byte `b`: the UTF-8 encoding of the code point `b`. -/
def stringOfByte (b : Nat) : GoString :=
  if b < 128 then [b] else [192 + b / 64, 128 + b % 64]

/-- Find a voice state of a specific user in a specific guild; the blank voice state has
`ChannelID` "0". A guild missing from the cache leaves `guild` nil and the read panics. -/
def getVoiceStateOfUser (p : Platform) (userID guildID : GoString) : Option VoiceState :=
  match p.guild guildID with
  | none => none
  | some guild =>
    match guild.VoiceStates.find? (fun v => decide (v.UserID = userID)) with
    | some v => some v
    | none => some { UserID := [], ChannelID := lit "0" }

def stringInSlice (a : GoString) : List GoString → Bool
  | [] => false
  | b :: rest => if b = a then true else stringInSlice a rest

/-- The loop that sets `isOp` in the op, deop, delete and kick branches: the entry whose key is
the voice channel of the author is looked for, and on it the owner is compared with the author,
then every element `v` of `OPs` with the key `k`. -/
def isOpLoop (voiceChannelID authorID : GoString) : Registry → Bool
  | [] => false
  | (k, r) :: rest =>
    if k = voiceChannelID then
      if r.OwnerID = authorID then true
      else r.OPs.any (fun v => decide (k = v))
    else isOpLoop voiceChannelID authorID rest

/-- The labelled loops `loop` and `deopLoop2`: index `i` runs over `OPs`, an element equal to the
ID of a mention is cut out and the index stays. Every round removes an element or advances, so
`len(OPs)` rounds of fuel reach the end from index 0. -/
def removalLoop (mentions : List User) : Nat → Nat → List GoString → List GoString
  | 0, _, ops => ops
  | fuel + 1, i, ops =>
    if h : i < ops.length then
      if mentions.any (fun rem => decide (ops.get ⟨i, h⟩ = rem.ID)) then
        removalLoop mentions fuel i (ops.take i ++ ops.drop (i + 1))
      else removalLoop mentions fuel (i + 1) ops
    else ops

/-- The two nested loops over `OPs` and the mentions at the head of the deop branch; they set
`isIn` and have no other effect. -/
def isInLoop (mentions : List User) (ops : List GoString) : Bool :=
  ops.any (fun v => mentions.any (fun thisUser => decide (thisUser.ID = v)))

/-- The mention loop of the op branch: a permission call and an append to `OPs` per mention. -/
def opMentions (voiceChannelID : GoString) : List User → Registry → Option Out
  | [], channels => some ⟨channels, []⟩
  | thisUser :: rest, channels =>
    match mapModify (fun r => { r with OPs := r.OPs ++ [thisUser.ID] }) voiceChannelID channels with
    | none => none
    | some channels1 =>
      match opMentions voiceChannelID rest channels1 with
      | none => none
      | some out =>
        some ⟨out.channels,
          Call.ChannelPermissionSet voiceChannelID thisUser.ID (lit "member") 40894464 0 :: out.calls⟩

/-- The mention loop of the kick branch: per mention a permission call, an append to `OPs`, then
`deopLoop2` over all the mentions of the message. -/
def kickMentions (mentions : List User) (voiceChannelID : GoString) :
    List User → Registry → Option Out
  | [], channels => some ⟨channels, []⟩
  | thisUser :: rest, channels =>
    match mapModify (fun r => { r with OPs := r.OPs ++ [thisUser.ID] }) voiceChannelID channels with
    | none => none
    | some channels1 =>
      match mapModify (fun r => { r with OPs := removalLoop mentions r.OPs.length 0 r.OPs })
          voiceChannelID channels1 with
      | none => none
      | some channels2 =>
        match kickMentions mentions voiceChannelID rest channels2 with
        | none => none
        | some out =>
          some ⟨out.channels,
            Call.ChannelPermissionSet voiceChannelID thisUser.ID (lit "member") 0 0 :: out.calls⟩

/-- The range over the map in the invite branch: on the entry whose key is the voice channel of
the author, a permission call per mention and then a reply. -/
def inviteLoop (message : Message) (voiceChannelID : GoString) : Registry → List Call
  | [] => []
  | (k, v) :: rest =>
    if k = voiceChannelID then
      message.Mentions.map
          (fun thisUser => Call.ChannelPermissionSet v.ChannelID thisUser.ID (lit "member") 36700160 0)
        ++ Call.ChannelMessageSend message.ChannelID
            (lit "They can now join your channel, \x60" ++ v.Name ++ lit "\x60")
        :: inviteLoop message voiceChannelID rest
    else inviteLoop message voiceChannelID rest

/-- The value of `eligible` in `makeNewPrivateVoice` after its two checks: the author owns no
record, and the voice channel of the author, unless it is "0", is not a key of the map. -/
def eligible (channels : Registry) (authorID voiceChannelID : GoString) : Bool :=
  if channels.any (fun v => decide (v.2.OwnerID = authorID)) then false
  else if voiceChannelID ≠ lit "0" then
    if channels.any (fun e => decide (e.1 = voiceChannelID)) then false else true
  else true

/-- The eligible branch of `makeNewPrivateVoice`, entered with the final value of `title`: the
channel is created (an error panics in `checkError`), two permissions are set, the record is
stored under the ID of the new channel and the author is told. -/
def createChannel (cfg : Config) (p : Platform) (channels : Registry) (guildID title : GoString)
    (message : Message) : Option Out :=
  match p.GuildChannelCreate guildID (cfg.voicePrefix ++ title) with
  | none => none
  | some newChannelID =>
    some ⟨mapSet channels newChannelID
        { GuildID := guildID
          ChannelID := newChannelID
          OwnerID := message.Author.ID
          Name := cfg.voicePrefix ++ title
          OPs := []
          Joined := false
          Timestamp := p.now },
      [Call.GuildChannelCreate guildID (cfg.voicePrefix ++ title) (lit "voice"),
       Call.ChannelPermissionSet newChannelID guildID (lit "role") 0 66060288,
       Call.ChannelPermissionSet newChannelID message.Author.ID (lit "member") 40894464 0,
       Call.ChannelMessageSend message.ChannelID
         (lit "Created a new voice channel! Name: \x60" ++ (cfg.voicePrefix ++ title)
           ++ lit "\x60")]⟩

/-- Creates the private voice channel of the author of `message`, named by `title`. -/
def makeNewPrivateVoice (cfg : Config) (p : Platform) (channels : Registry) (title : GoString)
    (message : Message) : Option Out :=
  if cfg.voicePrefix.length + title.length ≤ 100 then
    match p.channelGuild message.ChannelID with
    | none => none
    | some guildID =>
      match getVoiceStateOfUser p message.Author.ID guildID with
      | none => none
      | some voiceState =>
        if eligible channels message.Author.ID voiceState.ChannelID then
          createChannel cfg p channels guildID
            (if title.length = 0 then message.Author.Username else title) message
        else
          some ⟨channels,
            [Call.ChannelMessageSend message.ChannelID
              (lit "<@" ++ message.Author.ID
                ++ lit ">, you either already own a channel or are in a private voice channel!")]⟩
  else
    some ⟨channels,
      [Call.ChannelMessageSend message.ChannelID
        (lit "<@" ++ message.Author.ID ++ lit ">, that does not fit!")]⟩

/-- The invite and allow branch. -/
def inviteBranch (p : Platform) (channels : Registry) (message : Message) : Option Out :=
  if message.Mentions.length > 0 then
    match p.channelGuild message.ChannelID with
    | none => none
    | some guildID =>
      match getVoiceStateOfUser p message.Author.ID guildID with
      | none => none
      | some userVoiceState => some ⟨channels, inviteLoop message userVoiceState.ChannelID channels⟩
  else some ⟨channels, []⟩

/-- The op branch. -/
def opBranch (p : Platform) (channels : Registry) (message : Message) : Option Out :=
  if message.Mentions.length > 0 then
    match p.channelGuild message.ChannelID with
    | none => none
    | some guildID =>
      match getVoiceStateOfUser p message.Author.ID guildID with
      | none => none
      | some userVoiceState =>
        if isOpLoop userVoiceState.ChannelID message.Author.ID channels then
          match opMentions userVoiceState.ChannelID message.Mentions channels with
          | none => none
          | some out =>
            match mapGet out.channels userVoiceState.ChannelID with
            | none => none
            | some r =>
              some ⟨out.channels, out.calls ++ [Call.ChannelMessageSend message.ChannelID
                (lit "They are now OP\x27d in your channel, \x60" ++ r.Name ++ lit "\x60")]⟩
        else some ⟨channels, []⟩
  else some ⟨channels, []⟩

/-- The deop branch. The first loop reads `channels[userVoiceState.ChannelID].OPs` before any
check that the key is in the map. -/
def deopBranch (p : Platform) (channels : Registry) (message : Message) : Option Out :=
  if message.Mentions.length > 0 then
    match p.channelGuild message.ChannelID with
    | none => none
    | some guildID =>
      match getVoiceStateOfUser p message.Author.ID guildID with
      | none => none
      | some userVoiceState =>
        match mapGet channels userVoiceState.ChannelID with
        | none => none
        | some r0 =>
          let _isIn := isInLoop message.Mentions r0.OPs
          if isOpLoop userVoiceState.ChannelID message.Author.ID channels then
            match mapModify
                (fun r => { r with OPs := removalLoop message.Mentions r.OPs.length 0 r.OPs })
                userVoiceState.ChannelID channels with
            | none => none
            | some channels1 =>
              match mapGet channels1 userVoiceState.ChannelID with
              | none => none
              | some r =>
                some ⟨channels1,
                  message.Mentions.map (fun thisUser =>
                      Call.ChannelPermissionSet r0.ChannelID thisUser.ID (lit "member") 36700160 0)
                    ++ [Call.ChannelMessageSend message.ChannelID
                      (lit "They are now De-OP\x27d in your channel, \x60" ++ r.Name ++ lit "\x60")]⟩
          else some ⟨channels, []⟩
  else some ⟨channels, []⟩

/-- The delete branch: a platform call and a reply; the map is not written. -/
def deleteBranch (p : Platform) (channels : Registry) (message : Message) : Option Out :=
  match p.channelGuild message.ChannelID with
  | none => none
  | some guildID =>
    match getVoiceStateOfUser p message.Author.ID guildID with
    | none => none
    | some userVoiceState =>
      if isOpLoop userVoiceState.ChannelID message.Author.ID channels then
        match mapGet channels userVoiceState.ChannelID with
        | none => none
        | some r =>
          some ⟨channels,
            [Call.ChannelDelete userVoiceState.ChannelID,
             Call.ChannelMessageSend message.ChannelID
               (lit "Deleted channel: \x60" ++ r.Name ++ lit "\x60")]⟩
      else some ⟨channels, []⟩

/-- The kick branch. -/
def kickBranch (p : Platform) (channels : Registry) (message : Message) : Option Out :=
  if message.Mentions.length > 0 then
    match p.channelGuild message.ChannelID with
    | none => none
    | some guildID =>
      match getVoiceStateOfUser p message.Author.ID guildID with
      | none => none
      | some userVoiceState =>
        if isOpLoop userVoiceState.ChannelID message.Author.ID channels then
          match kickMentions message.Mentions userVoiceState.ChannelID message.Mentions channels with
          | none => none
          | some out =>
            match mapGet out.channels userVoiceState.ChannelID with
            | none => none
            | some r =>
              some ⟨out.channels, out.calls ++ [Call.ChannelMessageSend message.ChannelID
                (lit "They can no longer join/speak in your channel, \x60" ++ r.Name
                  ++ lit "\x60")]⟩
        else some ⟨channels, []⟩
  else some ⟨channels, []⟩

/-- Ran whenever a message is sent in a text channel the bot has access to. -/
def messageCreate (cfg : Config) (p : Platform) (channels : Registry) (message : Message) :
    Option Out :=
  if message.Author.ID = cfg.uID then some ⟨channels, []⟩
  else
    match message.Content with
    | [] => some ⟨channels, []⟩
    | c0 :: content1 =>
      if stringOfByte c0 ≠ cfg.commandPrefix then some ⟨channels, []⟩
      else
        match explodeCommand content1 with
        | [] => none
        | first :: args =>
          let baseCommand := cfg.ToLower first
          if stringInSlice baseCommand commands then
            if baseCommand = lit "new" then
              makeNewPrivateVoice cfg p channels (joinSpace args) message
            else if baseCommand = lit "invite" ∨ baseCommand = lit "allow" then
              inviteBranch p channels message
            else if baseCommand = lit "op" then opBranch p channels message
            else if baseCommand = lit "deop" then deopBranch p channels message
            else if baseCommand = lit "delete" then deleteBranch p channels message
            else if baseCommand = lit "kick" then kickBranch p channels message
            else some ⟨channels, []⟩
          else some ⟨channels, []⟩

/-- Get all voice channels and voice states in a given guild. A guild missing from the cache
leaves `guild` nil and the read of `guild.Channels` panics. -/
def getVoiceChannelsAndStates (p : Platform) (guildID : GoString) :
    Option (List Channel × List VoiceState) :=
  match p.guild guildID with
  | none => none
  | some guild =>
    some (guild.Channels.filter (fun c => decide (c.ChannelType = lit "voice")), guild.VoiceStates)

/-- The first loop of `VoiceStateUpdate`: the entry whose key is the channel of the event gets
`Joined` set. -/
def markJoined (channelID : GoString) : Registry → Registry
  | [] => []
  | (k, r) :: rest =>
    if channelID = k then (k, { r with Joined := true }) :: rest
    else (k, r) :: markJoined channelID rest

/-- The range over the map for a guild channel without users. `visit` holds the entries in the
order the range produces them, `channels` is the map the loop writes to. -/
def emptyChannelLoop (delay now : Int) (guildChannelID : GoString) :
    (visit : Registry) → (channels : Registry) → Out
  | [], channels => ⟨channels, []⟩
  | (k, r) :: rest, channels =>
    if k = guildChannelID then
      if r.Joined = true ∨ addInt r.Timestamp delay ≤ now then
        ⟨mapDelete channels guildChannelID, [Call.ChannelDelete guildChannelID]⟩
      else emptyChannelLoop delay now guildChannelID rest channels
    else ⟨channels, [Call.ChannelDelete guildChannelID]⟩

/-- The loop of `VoiceStateUpdate` through every voice channel of the guild, from index `i`.
`order i m` is the order in which the range started for `guildChannels[i]` produces the
entries of the map `m`. -/
def scanChannels (cfg : Config) (now : Int) (order : Nat → Registry → Registry)
    (voiceStates : List VoiceState) : Nat → List Channel → Registry → Out
  | _, [], channels => ⟨channels, []⟩
  | i, c :: rest, channels =>
    if c.Name.length ≤ cfg.voicePrefix.length then
      scanChannels cfg now order voiceStates (i + 1) rest channels
    else if c.Name.take cfg.voicePrefix.length ≠ cfg.voicePrefix then
      scanChannels cfg now order voiceStates (i + 1) rest channels
    else if getUserCountInVoiceChannel c.ID voiceStates = 0 then
      let out1 := emptyChannelLoop cfg.channelDeleteDelay now c.ID (order i channels) channels
      let out2 := scanChannels cfg now order voiceStates (i + 1) rest out1.channels
      ⟨out2.channels, out1.calls ++ out2.calls⟩
    else scanChannels cfg now order voiceStates (i + 1) rest channels

/-- Ran whenever someone does something relating to a voice channel. -/
def VoiceStateUpdate (cfg : Config) (p : Platform) (order : Nat → Registry → Registry)
    (channels : Registry) (voiceState : VoiceStateUpdateEvent) : Option Out :=
  match getVoiceChannelsAndStates p voiceState.GuildID with
  | none => none
  | some (guildChannels, voiceStates) =>
    some (scanChannels cfg p.now order voiceStates 0 guildChannels
      (markJoined voiceState.ChannelID channels))

/-- The range of the ticker case in `main`, over the keys the map had when the range started; a
key deleted before the range reaches it is not produced. -/
def sweepLoop (delay now : Int) : List GoString → Registry → Out
  | [], channels => ⟨channels, []⟩
  | k :: rest, channels =>
    match mapGet channels k with
    | none => sweepLoop delay now rest channels
    | some r =>
      if addInt r.Timestamp delay ≤ now ∧ r.Joined = false then
        let out := sweepLoop delay now rest (mapDelete channels r.ChannelID)
        ⟨out.channels, Call.ChannelDelete r.ChannelID :: out.calls⟩
      else sweepLoop delay now rest channels

/-- One tick of the ticker in `main`; `now` is `int(time.Now().Unix())`, taken to be the same
in every round of the range. -/
def sweep (cfg : Config) (now : Int) (channels : Registry) : Out :=
  sweepLoop cfg.channelDeleteDelay now (keys channels) channels

/-- The events the process reacts to, each with what the platform answers during it. -/
inductive Event where
  | message (p : Platform) (m : Message)
  | voice (p : Platform) (order : Nat → Registry → Registry) (v : VoiceStateUpdateEvent)
  | tick (now : Int)

/-- Handling one event. -/
def step (cfg : Config) (channels : Registry) : Event → Option Out
  | Event.message p m => messageCreate cfg p channels m
  | Event.voice p order v => VoiceStateUpdate cfg p order channels v
  | Event.tick now => some (sweep cfg now channels)

/-- Handling a sequence of events one at a time from the registry `channels`; the calls of all
the events are collected. `none` when a handler panics. -/
def run (cfg : Config) : Registry → List Event → Option Out
  | channels, [] => some ⟨channels, []⟩
  | channels, e :: rest =>
    match step cfg channels e with
    | none => none
    | some out1 =>
      match run cfg out1.channels rest with
      | none => none
      | some out2 => some ⟨out2.channels, out1.calls ++ out2.calls⟩

/-- The letters A to Z mapped to a to z, every other byte kept: what `strings.ToLower` does on a
string of ASCII bytes. Outside ASCII the two differ (`strings.ToLower` also lowers U+212A to
"k", for one), so this function stands for `strings.ToLower` in evaluations on ASCII messages
only; the general statements take `cfg.ToLower` as it comes. -/
def asciiToLower (s : GoString) : GoString :=
  s.map (fun b => if 65 ≤ b ∧ b ≤ 90 then b + 32 else b)

/-- The settings of the generated template `settings.ini`, for a bot user "bot", with
`asciiToLower` for `strings.ToLower`; it is evaluated on ASCII messages only. -/
def defaultConfig : Config :=
  { uID := lit "bot"
    commandPrefix := lit "!"
    voicePrefix := lit "PV: "
    channelDeleteDelay := 30
    ToLower := asciiToLower }

/-! ## Concrete situations used to evaluate the handlers -/

/-- A user whose ID and name are the ASCII string `s`. -/
def userOf (s : String) : User := { ID := lit s, Username := lit s }

/-- A platform whose cache holds every channel in guild "g", where the guild has the channels
`chs` and the voice states `vs`; a created channel gets the ID `newID`; the time is `now`. -/
def platformOf (chs : List Channel) (vs : List VoiceState) (newID : String) (now : Int) : Platform :=
  { channelGuild := fun _ => some (lit "g")
    guild := fun _ => some { Channels := chs, VoiceStates := vs }
    GuildChannelCreate := fun _ _ => some (lit newID)
    now := now }

/-- A message with `content`, sent by `author` in the text channel "t", mentioning `mentions`. -/
def messageOf (author : String) (content : String) (mentions : List String) : Message :=
  { Author := userOf author
    Content := lit content
    ChannelID := lit "t"
    Mentions := mentions.map userOf }

/-- The entry of a channel `id` of guild "g" named `name`, owned by `owner`. -/
def recordOf (id owner name : String) (ops : List String) (joined : Bool) (timestamp : Int) :
    GoString × voiceChannel :=
  (lit id,
    { GuildID := lit "g"
      ChannelID := lit id
      OwnerID := lit owner
      Name := lit name
      OPs := ops.map lit
      Joined := joined
      Timestamp := timestamp })

/-- The voice state of user `user` in channel `channel`. -/
def voiceStateOf (user channel : String) : VoiceState := { UserID := lit user, ChannelID := lit channel }

/-- The owner IDs of the records of the map, in list order. -/
def owners (m : Registry) : List GoString := m.map (fun e => e.2.OwnerID)

/-- A creates a channel, B creates one, A asks for a second one, then a sweep tick. -/
def twoOwnersEvents : List Event :=
  [Event.message (platformOf [] [] "c1" 1000) (messageOf "A" "!new a" []),
   Event.message (platformOf [] [] "c2" 1001) (messageOf "B" "!new b" []),
   Event.message (platformOf [] [] "c3" 1002) (messageOf "A" "!new c" []),
   Event.tick 1003]

/-- The registry and the calls after `twoOwnersEvents`. -/
def twoOwnersOut : Out :=
  ⟨[recordOf "c2" "B" "PV: b" [] false 1001, recordOf "c1" "A" "PV: a" [] false 1000],
   [Call.GuildChannelCreate (lit "g") (lit "PV: a") (lit "voice"),
    Call.ChannelPermissionSet (lit "c1") (lit "g") (lit "role") 0 66060288,
    Call.ChannelPermissionSet (lit "c1") (lit "A") (lit "member") 40894464 0,
    Call.ChannelMessageSend (lit "t") (lit "Created a new voice channel! Name: \x60PV: a\x60"),
    Call.GuildChannelCreate (lit "g") (lit "PV: b") (lit "voice"),
    Call.ChannelPermissionSet (lit "c2") (lit "g") (lit "role") 0 66060288,
    Call.ChannelPermissionSet (lit "c2") (lit "B") (lit "member") 40894464 0,
    Call.ChannelMessageSend (lit "t") (lit "Created a new voice channel! Name: \x60PV: b\x60"),
    Call.ChannelMessageSend (lit "t")
      (lit "<@A>, you either already own a channel or are in a private voice channel!")]⟩

/-- The message of `author` in the text channel "t" whose content is the bytes `content`. -/
def messageOfBytes (author : User) (content : GoString) : Message :=
  { Author := author, Content := content, ChannelID := lit "t", Mentions := [] }

/-- A platform like `platformOf` with no channels and no voice states, except that it answers
every channel creation with an error. -/
def platformRefusing (now : Int) : Platform :=
  { channelGuild := fun _ => some (lit "g")
    guild := fun _ => some { Channels := [], VoiceStates := [] }
    GuildChannelCreate := fun _ _ => none
    now := now }

/-- A user name of 25 characters of four bytes each (U+1F600), 100 bytes. -/
def wideName : GoString := (List.replicate 25 [240, 159, 152, 128]).flatten

/-- The default settings with another prefix for the voice channels. -/
def configWithVoicePrefix (voicePrefix : GoString) : Config :=
  { defaultConfig with voicePrefix := voicePrefix }

/-- The guild channels the scan of `VoiceStateUpdate` acts on: the name is longer than the voice
prefix, begins with it, and no voice state is in the channel. -/
def emptyPrivate (cfg : Config) (voiceStates : List VoiceState) (c : Channel) : Prop :=
  cfg.voicePrefix.length < c.Name.length ∧
    c.Name.take cfg.voicePrefix.length = cfg.voicePrefix ∧
    getUserCountInVoiceChannel c.ID voiceStates = 0

/-- A guild with the private channels "c1" (empty) and "c2" (B inside) and the ordinary channel
"v1" (A inside). -/
def threeChannelGuild : Guild :=
  { Channels := [⟨lit "c1", lit "PV: a", lit "voice"⟩, ⟨lit "c2", lit "PV: b", lit "voice"⟩,
      ⟨lit "v1", lit "General", lit "voice"⟩]
    VoiceStates := [voiceStateOf "B" "c2", voiceStateOf "A" "v1"] }

/-- The value of `baseCommand` in `messageCreate`, `none` when the handler returns before it
computes one (message of the bot, empty content, first byte not the prefix). -/
def baseCommandOf (cfg : Config) (message : Message) : Option GoString :=
  if message.Author.ID = cfg.uID then none
  else
    match message.Content with
    | [] => none
    | c0 :: content1 =>
      if stringOfByte c0 ≠ cfg.commandPrefix then none
      else
        match explodeCommand content1 with
        | [] => none
        | first :: _ => some (cfg.ToLower first)

/-- The value of `userVoiceState.ChannelID` in the branches of `messageCreate`, `none` when the
cache misses. -/
def authorVoiceChannel (p : Platform) (message : Message) : Option GoString :=
  match p.channelGuild message.ChannelID with
  | none => none
  | some guildID =>
    match getVoiceStateOfUser p message.Author.ID guildID with
    | none => none
    | some userVoiceState => some userVoiceState.ChannelID

/-- The message is an op command, and the owner of the tracked channel its author is in is
among its mentions. -/
def opMentionsOwner (cfg : Config) (p : Platform) (channels : Registry) (message : Message) : Bool :=
  decide (baseCommandOf cfg message = some (lit "op")) &&
    match authorVoiceChannel p message with
    | none => false
    | some k =>
      match mapGet channels k with
      | none => false
      | some r => decide (r.OwnerID ∈ message.Mentions.map User.ID)

/-- Along the run of `events` from `channels`, no message is an op command that mentions the
owner of the channel its author is in. -/
def ownerOpFree (cfg : Config) : Registry → List Event → Bool
  | _, [] => true
  | channels, e :: rest =>
    (match e with
      | Event.message p m => !opMentionsOwner cfg p channels m
      | _ => true) &&
    match step cfg channels e with
    | none => true
    | some out => ownerOpFree cfg out.channels rest

/-- A creates a channel, joins it and makes B an operator. -/
def ownerOpsFriendEvents : List Event :=
  [Event.message (platformOf [] [] "c1" 1000) (messageOf "A" "!new a" []),
   Event.voice
     (platformOf [⟨lit "c1", lit "PV: a", lit "voice"⟩] [voiceStateOf "A" "c1"] "c9" 1001)
     (fun _ m => m) { GuildID := lit "g", ChannelID := lit "c1", UserID := lit "A" },
   Event.message (platformOf [] [voiceStateOf "A" "c1"] "c2" 1002) (messageOf "A" "!op @B" ["B"])]

/-- The registry and the calls after `ownerOpsFriendEvents`. -/
def ownerOpsFriendOut : Out :=
  ⟨[recordOf "c1" "A" "PV: a" ["B"] true 1000],
   [Call.GuildChannelCreate (lit "g") (lit "PV: a") (lit "voice"),
    Call.ChannelPermissionSet (lit "c1") (lit "g") (lit "role") 0 66060288,
    Call.ChannelPermissionSet (lit "c1") (lit "A") (lit "member") 40894464 0,
    Call.ChannelMessageSend (lit "t") (lit "Created a new voice channel! Name: \x60PV: a\x60"),
    Call.ChannelPermissionSet (lit "c1") (lit "B") (lit "member") 40894464 0,
    Call.ChannelMessageSend (lit "t") (lit "They are now OP\x27d in your channel, \x60PV: a\x60")]⟩

/-! ## Theorems -/

/-! ### What the handlers do to the entries of the registry

`h` below is any function of an entry (its key, its owner, a test on it); the lemmas say which
handlers leave `channels.map h` as it is. -/

theorem mapDelete_sublist (m : Registry) (k : GoString) : (mapDelete m k).Sublist m :=
  List.filter_sublist m

theorem owners_sublist {m m' : Registry} (h : m'.Sublist m) : (owners m').Sublist (owners m) :=
  h.map _

theorem keys_sublist {m m' : Registry} (h : m'.Sublist m) : (keys m').Sublist (keys m) :=
  h.map _

theorem mapModify_map {α : Type} (h : GoString × voiceChannel → α) {f : voiceChannel → voiceChannel}
    {k : GoString} : ∀ {m m' : Registry}, mapModify f k m = some m' →
      (∀ k' r, h (k', f r) = h (k', r)) → m'.map h = m.map h := by
  intro m
  induction m with
  | nil => intro m' hm; simp [mapModify] at hm
  | cons e rest ih =>
    intro m' hm hf
    obtain ⟨k', r⟩ := e
    simp only [mapModify] at hm
    split at hm
    · cases hm; simp [hf]
    · split at hm
      · cases hm
      · rename_i rest' hrest
        cases hm
        simp [ih hrest hf]

theorem markJoined_map {α : Type} (h : GoString × voiceChannel → α) (id : GoString)
    (hj : ∀ k r, h (k, { r with Joined := true }) = h (k, r)) :
    ∀ m : Registry, (markJoined id m).map h = m.map h := by
  intro m
  induction m with
  | nil => rfl
  | cons e rest ih =>
    obtain ⟨k, r⟩ := e
    simp only [markJoined]
    split
    · simp [hj]
    · simp [ih]

theorem opMentions_map {α : Type} (h : GoString × voiceChannel → α)
    (hops : ∀ k r ops, h (k, { r with OPs := ops }) = h (k, r)) (vc : GoString) :
    ∀ (ms : List User) (channels : Registry) (out : Out),
      opMentions vc ms channels = some out → out.channels.map h = channels.map h := by
  intro ms
  induction ms with
  | nil => intro channels out hm; simp [opMentions] at hm; subst hm; rfl
  | cons u rest ih =>
    intro channels out hm
    simp only [opMentions] at hm
    split at hm
    · cases hm
    · rename_i channels1 h1
      split at hm
      · cases hm
      · rename_i out1 h2
        cases hm
        simp only
        rw [ih _ out1 h2]
        exact mapModify_map h h1 (fun _ _ => hops _ _ _)

theorem kickMentions_map {α : Type} (h : GoString × voiceChannel → α)
    (hops : ∀ k r ops, h (k, { r with OPs := ops }) = h (k, r)) (mentions : List User)
    (vc : GoString) : ∀ (ms : List User) (channels : Registry) (out : Out),
      kickMentions mentions vc ms channels = some out → out.channels.map h = channels.map h := by
  intro ms
  induction ms with
  | nil => intro channels out hm; simp [kickMentions] at hm; subst hm; rfl
  | cons u rest ih =>
    intro channels out hm
    simp only [kickMentions] at hm
    split at hm
    · cases hm
    · rename_i channels1 h1
      split at hm
      · cases hm
      · rename_i channels2 h2
        split at hm
        · cases hm
        · rename_i out1 h3
          cases hm
          simp only
          rw [ih _ out1 h3, mapModify_map h h2 (fun _ _ => hops _ _ _),
            mapModify_map h h1 (fun _ _ => hops _ _ _)]

/-- The new command leaves the registry as it is or sets one record: under the ID of the
created channel, owned by the author, who owned no record, with no OPs and not joined. -/
theorem makeNewPrivateVoice_channels {cfg : Config} {p : Platform} {channels : Registry}
    {title : GoString} {message : Message} {out : Out}
    (h : makeNewPrivateVoice cfg p channels title message = some out) :
    out.channels = channels ∨
      ∃ id r, out.channels = mapSet channels id r ∧ r.OwnerID = message.Author.ID ∧
        r.ChannelID = id ∧ r.OPs = [] ∧ r.Joined = false ∧
        message.Author.ID ∉ owners channels := by
  unfold makeNewPrivateVoice at h
  split at h
  · split at h
    · cases h
    · split at h
      · cases h
      · split at h
        · rename_i helig
          unfold createChannel at h
          split at h
          · cases h
          · rename_i newID hnew
            cases h
            right
            refine ⟨_, _, rfl, rfl, rfl, rfl, rfl, ?_⟩
            intro hmem
            have hany : channels.any (fun e => decide (e.2.OwnerID = message.Author.ID)) = true := by
              simp only [owners, List.mem_map] at hmem
              obtain ⟨e, he, heq⟩ := hmem
              exact List.any_eq_true.mpr ⟨e, he, by simp [heq]⟩
            simp [eligible, hany] at helig
        · cases h; left; rfl
  · cases h; left; rfl

theorem inviteBranch_channels {p : Platform} {channels : Registry} {message : Message} {out : Out}
    (h : inviteBranch p channels message = some out) : out.channels = channels := by
  unfold inviteBranch at h
  split at h
  · split at h
    · cases h
    · split at h
      · cases h
      · cases h; rfl
  · cases h; rfl

theorem deleteBranch_channels {p : Platform} {channels : Registry} {message : Message} {out : Out}
    (h : deleteBranch p channels message = some out) : out.channels = channels := by
  unfold deleteBranch at h
  split at h
  · cases h
  · split at h
    · cases h
    · split at h
      · split at h
        · cases h
        · cases h; rfl
      · cases h; rfl

theorem opBranch_map {α : Type} (h : GoString × voiceChannel → α)
    (hops : ∀ k r ops, h (k, { r with OPs := ops }) = h (k, r))
    {p : Platform} {channels : Registry} {message : Message} {out : Out}
    (hm : opBranch p channels message = some out) : out.channels.map h = channels.map h := by
  unfold opBranch at hm
  split at hm
  · split at hm
    · cases hm
    · split at hm
      · cases hm
      · split at hm
        · split at hm
          · cases hm
          · rename_i out1 h1
            split at hm
            · cases hm
            · cases hm
              exact opMentions_map h hops _ _ _ out1 h1
        · cases hm; rfl
  · cases hm; rfl

theorem kickBranch_map {α : Type} (h : GoString × voiceChannel → α)
    (hops : ∀ k r ops, h (k, { r with OPs := ops }) = h (k, r))
    {p : Platform} {channels : Registry} {message : Message} {out : Out}
    (hm : kickBranch p channels message = some out) : out.channels.map h = channels.map h := by
  unfold kickBranch at hm
  split at hm
  · split at hm
    · cases hm
    · split at hm
      · cases hm
      · split at hm
        · split at hm
          · cases hm
          · rename_i out1 h1
            split at hm
            · cases hm
            · cases hm
              exact kickMentions_map h hops _ _ _ _ out1 h1
        · cases hm; rfl
  · cases hm; rfl

theorem deopBranch_map {α : Type} (h : GoString × voiceChannel → α)
    (hops : ∀ k r ops, h (k, { r with OPs := ops }) = h (k, r))
    {p : Platform} {channels : Registry} {message : Message} {out : Out}
    (hm : deopBranch p channels message = some out) : out.channels.map h = channels.map h := by
  unfold deopBranch at hm
  split at hm
  · split at hm
    · cases hm
    · split at hm
      · cases hm
      · split at hm
        · cases hm
        · simp only at hm
          split at hm
          · split at hm
            · cases hm
            · rename_i channels1 h1
              split at hm
              · cases hm
              · cases hm
                exact mapModify_map h h1 (fun _ _ => hops _ _ _)
          · cases hm; rfl
  · cases hm; rfl

/-- What a chat command does to the registry: it keeps every function of the entries that
does not look at `OPs`, or it sets one record as `makeNewPrivateVoice` does. -/
theorem messageCreate_map {α : Type} (h : GoString × voiceChannel → α)
    (hops : ∀ k r ops, h (k, { r with OPs := ops }) = h (k, r))
    {cfg : Config} {p : Platform} {channels : Registry}
    {message : Message} {out : Out} (hm : messageCreate cfg p channels message = some out) :
    out.channels.map h = channels.map h ∨
      ∃ id r, out.channels = mapSet channels id r ∧ r.OwnerID = message.Author.ID ∧
        r.ChannelID = id ∧ r.OPs = [] ∧ r.Joined = false ∧
        message.Author.ID ∉ owners channels := by
  unfold messageCreate at hm
  split at hm
  · cases hm; left; rfl
  · split at hm
    · cases hm; left; rfl
    · split at hm
      · cases hm; left; rfl
      · split at hm
        · cases hm
        · simp only at hm
          split at hm
          · split at hm
            · rcases makeNewPrivateVoice_channels hm with h1 | h1
              · left; rw [h1]
              · right; exact h1
            · split at hm
              · left; rw [inviteBranch_channels hm]
              · split at hm
                · left; exact opBranch_map h hops hm
                · split at hm
                  · left; exact deopBranch_map h hops hm
                  · split at hm
                    · left; rw [deleteBranch_channels hm]
                    · split at hm
                      · left; exact kickBranch_map h hops hm
                      · cases hm; left; rfl
          · cases hm; left; rfl

theorem emptyChannelLoop_sublist (delay now : Int) (id : GoString) :
    ∀ (visit channels : Registry),
      (emptyChannelLoop delay now id visit channels).channels.Sublist channels := by
  intro visit
  induction visit with
  | nil => intro channels; exact List.Sublist.refl _
  | cons e rest ih =>
    intro channels
    obtain ⟨k, r⟩ := e
    simp only [emptyChannelLoop]
    split
    · split
      · exact mapDelete_sublist _ _
      · exact ih channels
    · exact List.Sublist.refl _

theorem scanChannels_sublist (cfg : Config) (now : Int) (order : Nat → Registry → Registry)
    (vs : List VoiceState) : ∀ (cs : List Channel) (i : Nat) (channels : Registry),
      (scanChannels cfg now order vs i cs channels).channels.Sublist channels := by
  intro cs
  induction cs with
  | nil => intro i channels; exact List.Sublist.refl _
  | cons c rest ih =>
    intro i channels
    simp only [scanChannels]
    split
    · exact ih _ _
    · split
      · exact ih _ _
      · split
        · exact (ih _ _).trans (emptyChannelLoop_sublist _ _ _ _ _)
        · exact ih _ _

theorem sweepLoop_sublist (delay now : Int) : ∀ (ks : List GoString) (channels : Registry),
    (sweepLoop delay now ks channels).channels.Sublist channels := by
  intro ks
  induction ks with
  | nil => intro channels; exact List.Sublist.refl _
  | cons k rest ih =>
    intro channels
    simp only [sweepLoop]
    split
    · exact ih _
    · split
      · exact (ih _).trans (mapDelete_sublist _ _)
      · exact ih _

/-- A voice state update marks a record as joined and then only removes records. -/
theorem VoiceStateUpdate_sublist {cfg : Config} {p : Platform} {order : Nat → Registry → Registry}
    {channels : Registry} {v : VoiceStateUpdateEvent} {out : Out}
    (h : VoiceStateUpdate cfg p order channels v = some out) :
    out.channels.Sublist (markJoined v.ChannelID channels) := by
  unfold VoiceStateUpdate at h
  split at h
  · cases h
  · cases h
    exact scanChannels_sublist _ _ _ _ _ _ _

theorem step_owners_nodup {cfg : Config} {channels : Registry} {e : Event} {out : Out}
    (h : step cfg channels e = some out) (hn : (owners channels).Nodup) :
    (owners out.channels).Nodup := by
  cases e with
  | message p m =>
    rcases messageCreate_map (fun e => e.2.OwnerID) (fun _ _ _ => rfl) h with
      h1 | ⟨id, r, h1, h2, -, -, -, h3⟩
    · show (out.channels.map (fun e => e.2.OwnerID)).Nodup
      rw [h1]; exact hn
    · rw [h1]
      have hsub : (owners (mapDelete channels id)).Sublist (owners channels) :=
        owners_sublist (mapDelete_sublist _ _)
      show (r.OwnerID :: owners (mapDelete channels id)).Nodup
      rw [h2]
      exact List.nodup_cons.mpr ⟨fun hm => h3 (hsub.subset hm), hn.sublist hsub⟩
  | voice p order v =>
    have hs := owners_sublist (VoiceStateUpdate_sublist h)
    have hm : owners (markJoined v.ChannelID channels) = owners channels :=
      markJoined_map (fun e => e.2.OwnerID) _ (fun _ _ => rfl) channels
    rw [hm] at hs
    exact hn.sublist hs
  | tick now =>
    simp only [step, Option.some.injEq] at h
    subst h
    exact hn.sublist (owners_sublist (sweepLoop_sublist _ _ _ _))

theorem run_owners_nodup (cfg : Config) : ∀ (events : List Event) (channels : Registry) (out : Out),
    run cfg channels events = some out → (owners channels).Nodup → (owners out.channels).Nodup := by
  intro events
  induction events with
  | nil => intro channels out h hn; simp [run] at h; subst h; exact hn
  | cons e rest ih =>
    intro channels out h hn
    simp only [run] at h
    split at h
    · cases h
    · rename_i out1 h1
      split at h
      · cases h
      · rename_i out2 h2
        cases h
        exact ih _ out2 h2 (step_owners_nodup h1 hn)

theorem WF_iff_map (m : Registry) :
    WF m ↔ (m.map Prod.fst).Nodup ∧
      ∀ b ∈ m.map (fun e => decide (e.2.ChannelID = e.1)), b = true := by
  unfold WF keys
  simp

theorem WF_sublist {m m' : Registry} (hs : m'.Sublist m) (hwf : WF m) : WF m' :=
  ⟨hwf.1.sublist (keys_sublist hs), fun e he => hwf.2 e (hs.subset he)⟩

theorem WF_of_map_eq {m m' : Registry} (hk : m'.map Prod.fst = m.map Prod.fst)
    (hc : m'.map (fun e => decide (e.2.ChannelID = e.1))
      = m.map (fun e => decide (e.2.ChannelID = e.1))) (hwf : WF m) : WF m' := by
  rw [WF_iff_map] at hwf ⊢
  rw [hk, hc]
  exact hwf

theorem WF_mapSet {m : Registry} {id : GoString} {r : voiceChannel} (hid : r.ChannelID = id)
    (hwf : WF m) : WF (mapSet m id r) := by
  have hsub := WF_sublist (mapDelete_sublist m id) hwf
  refine ⟨?_, ?_⟩
  · show (id :: keys (mapDelete m id)).Nodup
    refine List.nodup_cons.mpr ⟨?_, hsub.1⟩
    intro hmem
    simp only [keys, mapDelete, List.mem_map, List.mem_filter] at hmem
    obtain ⟨e, ⟨-, hne⟩, heq⟩ := hmem
    simp [heq] at hne
  · intro e he
    rcases List.mem_cons.mp he with h | h
    · rw [h]; exact hid
    · exact hsub.2 e h

/-- Every handler keeps the shape of the map: distinct keys, each record under its own ID. -/
theorem step_WF {cfg : Config} {channels : Registry} {e : Event} {out : Out}
    (h : step cfg channels e = some out) (hwf : WF channels) : WF out.channels := by
  cases e with
  | message p m =>
    rcases messageCreate_map Prod.fst (fun _ _ _ => rfl) h with hk | ⟨id, r, h1, -, h2, -, -, -⟩
    · rcases messageCreate_map (fun e => decide (e.2.ChannelID = e.1)) (fun _ _ _ => rfl) h with
        hc | ⟨id, r, h1, -, h2, -, -, -⟩
      · exact WF_of_map_eq hk hc hwf
      · rw [h1]; exact WF_mapSet h2 hwf
    · rw [h1]; exact WF_mapSet h2 hwf
  | voice p order v =>
    refine WF_sublist (VoiceStateUpdate_sublist h) ?_
    exact WF_of_map_eq (markJoined_map Prod.fst _ (fun _ _ => rfl) channels)
      (markJoined_map (fun e => decide (e.2.ChannelID = e.1)) _ (fun _ _ => rfl) channels) hwf
  | tick now =>
    simp only [step, Option.some.injEq] at h
    subst h
    exact WF_sublist (sweepLoop_sublist _ _ _ _) hwf

/-- The registries reached from the empty one are maps with every record under its own ID. -/
theorem run_WF (cfg : Config) : ∀ (events : List Event) (channels : Registry) (out : Out),
    run cfg channels events = some out → WF channels → WF out.channels := by
  intro events
  induction events with
  | nil => intro channels out h hn; simp [run] at h; subst h; exact hn
  | cons e rest ih =>
    intro channels out h hn
    simp only [run] at h
    split at h
    · cases h
    · rename_i out1 h1
      split at h
      · cases h
      · rename_i out2 h2
        cases h
        exact ih _ out2 h2 (step_WF h1 hn)

/-- The authorization loop on a map: it accepts exactly the owner of the record stored under the
voice channel of the author, and anybody when that channel ID itself is an element of `OPs`. -/
theorem isOpLoop_iff {m : Registry} {k a : GoString} {r : voiceChannel}
    (h : mapGet m k = some r) : isOpLoop k a m = true ↔ r.OwnerID = a ∨ k ∈ r.OPs := by
  induction m with
  | nil => simp [mapGet] at h
  | cons e rest ih =>
    obtain ⟨k', r'⟩ := e
    rw [mapGet] at h
    rw [isOpLoop]
    by_cases hk : k' = k
    · rw [if_pos hk] at h
      cases h
      rw [if_pos hk]
      subst hk
      by_cases ho : r.OwnerID = a
      · simp [ho]
      · simp [ho]
    · rw [if_neg hk] at h
      rw [if_neg hk]
      exact ih h

/-- The authorization loop rejects everybody whose voice channel is not a key of the map. -/
theorem isOpLoop_untracked {m : Registry} {k a : GoString} (h : mapGet m k = none) :
    isOpLoop k a m = false := by
  induction m with
  | nil => rfl
  | cons e rest ih =>
    obtain ⟨k', r'⟩ := e
    rw [mapGet] at h
    rw [isOpLoop]
    by_cases hk : k' = k
    · rw [if_pos hk] at h; cases h
    · rw [if_neg hk] at h
      rw [if_neg hk]
      exact ih h

/-! ### The claims -/

/-- C1. The authorization loop of the kick handler compares the elements of `OPs` with the
key of the channel, not with the author: after the owner A has sent "!op @B" in channel "c1",
B is in `OPs`, yet the check rejects B and the message "!kick @C" of B changes nothing and
issues no call. -/
theorem C1_operator_is_rejected :
    messageCreate defaultConfig
        (platformOf [] [voiceStateOf "A" "c1", voiceStateOf "B" "c1"] "c2" 1000)
        [recordOf "c1" "A" "PV: room" [] true 900] (messageOf "A" "!op @B" ["B"])
      = some ⟨[recordOf "c1" "A" "PV: room" ["B"] true 900],
          [Call.ChannelPermissionSet (lit "c1") (lit "B") (lit "member") 40894464 0,
           Call.ChannelMessageSend (lit "t") (lit "They are now OP\x27d in your channel, \x60PV: room\x60")]⟩
    ∧ isOpLoop (lit "c1") (lit "B") [recordOf "c1" "A" "PV: room" ["B"] true 900] = false
    ∧ messageCreate defaultConfig
        (platformOf [] [voiceStateOf "A" "c1", voiceStateOf "B" "c1"] "c2" 1000)
        [recordOf "c1" "A" "PV: room" ["B"] true 900] (messageOf "B" "!kick @C" ["C"])
      = some ⟨[recordOf "c1" "A" "PV: room" ["B"] true 900], []⟩ := by
  decide

/-- C2. The delete branch issues the platform call and the reply but never writes the map:
after the owner A, present in "c1", has sent "!delete", the record of "c1" is still in the
registry. -/
theorem C2_delete_keeps_record :
    messageCreate defaultConfig (platformOf [] [voiceStateOf "A" "c1"] "c2" 1000)
        [recordOf "c1" "A" "PV: room" [] true 900] (messageOf "A" "!delete" [])
      = some ⟨[recordOf "c1" "A" "PV: room" [] true 900],
          [Call.ChannelDelete (lit "c1"),
           Call.ChannelMessageSend (lit "t") (lit "Deleted channel: \x60PV: room\x60")]⟩
    ∧ mapGet [recordOf "c1" "A" "PV: room" [] true 900] (lit "c1") = some (recordOf "c1" "A" "PV: room" [] true 900).2 := by
  decide

/-- C3. Starting from the empty registry, after every sequence of chat commands, voice state
updates and sweep ticks handled one at a time without a panic, the owner IDs of the records
are pairwise distinct: two records with the same `OwnerID` are the same entry. -/
theorem C3_no_two_records_share_owner (cfg : Config) (events : List Event) (out : Out)
    (h : run cfg [] events = some out) :
    (owners out.channels).Nodup ∧
      ∀ e1 ∈ out.channels, ∀ e2 ∈ out.channels, e1.2.OwnerID = e2.2.OwnerID → e1 = e2 := by
  have hn : (owners out.channels).Nodup := run_owners_nodup cfg events [] out h List.nodup_nil
  exact ⟨hn, fun e1 h1 e2 h2 heq => List.inj_on_of_nodup_map hn h1 h2 heq⟩

/-- Witness of C3: A creates a channel, B creates one, A asks for a second one and is refused,
and a sweep runs before the grace period is over. -/
theorem C3_no_two_records_share_owner_witness :
    run defaultConfig [] twoOwnersEvents = some twoOwnersOut
    ∧ (owners twoOwnersOut.channels).Nodup :=
  ⟨by decide,
   (C3_no_two_records_share_owner defaultConfig twoOwnersEvents twoOwnersOut (by decide)).1⟩

theorem splitSpace_ne_nil (s : GoString) : splitSpace s ≠ [] := by
  induction s with
  | nil => simp [splitSpace]
  | cons c cs ih =>
    simp only [splitSpace]
    split
    · simp
    · split <;> simp

/-- Joining what `strings.Split` made gives the string back. -/
theorem joinSpace_splitSpace (s : GoString) : joinSpace (splitSpace s) = s := by
  induction s with
  | nil => simp [splitSpace, joinSpace]
  | cons c cs ih =>
    simp only [splitSpace]
    split
    · rename_i hc
      subst hc
      cases hsp : splitSpace cs with
      | nil => exact absurd hsp (splitSpace_ne_nil cs)
      | cons w ws =>
        rw [hsp] at ih
        simp [joinSpace, ih]
    · split
      · rename_i hsp; exact absurd hsp (splitSpace_ne_nil cs)
      · rename_i w ws hsp
        rw [hsp] at ih
        cases ws with
        | nil => simp [joinSpace] at ih ⊢; exact ih
        | cons w' ws' => simp [joinSpace] at ih ⊢; exact ih

/-- A word without a space, then a space: the word is the first piece of the split. -/
theorem splitSpace_word (w rest : GoString) (hw : 32 ∉ w) :
    splitSpace (w ++ 32 :: rest) = w :: splitSpace rest := by
  induction w with
  | nil => simp [splitSpace]
  | cons c cs ih =>
    have hc : c ≠ 32 := fun h => hw (by simp [h])
    have hcs : 32 ∉ cs := fun h => hw (by simp [h])
    have ih' := ih hcs
    show splitSpace (c :: (cs ++ 32 :: rest)) = (c :: cs) :: splitSpace rest
    rw [splitSpace, if_neg hc, ih']

theorem stringOfByte_ascii {b : Nat} (hb : b < 128) : stringOfByte b = [b] := by
  simp [stringOfByte, hb]

theorem mapDelete_of_not_mem {m : Registry} {k : GoString} (h : k ∉ keys m) : mapDelete m k = m := by
  unfold mapDelete
  apply List.filter_eq_self.mpr
  intro e he
  simp only [ne_eq, decide_eq_true_eq]
  intro hk
  exact h (hk ▸ List.mem_map_of_mem Prod.fst he)

theorem any_owner_eq_false {channels : Registry} {a : GoString} (h : a ∉ owners channels) :
    channels.any (fun v => decide (v.2.OwnerID = a)) = false := by
  rw [List.any_eq_false]
  intro e he
  simp only [decide_eq_true_eq]
  intro heq
  exact h (heq ▸ List.mem_map_of_mem (fun e => e.2.OwnerID) he)

theorem any_key_eq_false {channels : Registry} {k : GoString} (h : k ∉ keys channels) :
    channels.any (fun e => decide (e.1 = k)) = false := by
  rw [List.any_eq_false]
  intro e he
  simp only [decide_eq_true_eq]
  intro heq
  exact h (heq ▸ List.mem_map_of_mem Prod.fst he)

/-- A message whose first byte is the command prefix and whose first word lowers to "new" is
handled by `makeNewPrivateVoice` with the rest of the words, joined, as title. -/
theorem messageCreate_new {cfg : Config} {p : Platform} {channels : Registry} {message : Message}
    {b : Nat} {content1 first : GoString} {args : List GoString}
    (hbot : message.Author.ID ≠ cfg.uID) (hcontent : message.Content = b :: content1)
    (hpfx : stringOfByte b = cfg.commandPrefix)
    (hsplit : explodeCommand content1 = first :: args)
    (hlower : cfg.ToLower first = lit "new") :
    messageCreate cfg p channels message
      = makeNewPrivateVoice cfg p channels (joinSpace args) message := by
  unfold messageCreate
  rw [if_neg hbot, hcontent]
  simp only [hpfx, ne_eq, not_true_eq_false, if_false, hsplit, hlower]
  rw [if_pos (by decide), if_pos trivial]

/-- C4. A user A other than the bot who owns no record and whose voice state names no tracked
channel sends the command prefix (one ASCII byte), "new ", and a non-empty title `t` that fits
(`len(voicePrefix)+len(t) <= 100`; `t` may hold spaces). With the text channel and the guild in
the cache and the platform creating the channel under an ID `newID` that is not yet a key, the
registry is the old one plus the one record under `newID`, owned by A, named `voicePrefix`
followed by `t`, with no OPs and `Joined` false, and the calls are one channel create, the deny
for the everyone role (the guild ID), the allow for A, and the reply. -/
theorem C4_new_creates_one_record (cfg : Config) (p : Platform) (channels : Registry) (A : User)
    (t textChannel guildID newID : GoString) (mentions : List User) (b : Nat)
    (voiceState : VoiceState)
    (hbot : A.ID ≠ cfg.uID) (hpfx : cfg.commandPrefix = [b]) (hb : b < 128)
    (hlower : cfg.ToLower (lit "new") = lit "new")
    (hcache : p.channelGuild textChannel = some guildID)
    (hvs : getVoiceStateOfUser p A.ID guildID = some voiceState)
    (hown : A.ID ∉ owners channels)
    (hpres : voiceState.ChannelID = lit "0" ∨ voiceState.ChannelID ∉ keys channels)
    (ht : t ≠ []) (hlen : cfg.voicePrefix.length + t.length ≤ 100)
    (hcreate : p.GuildChannelCreate guildID (cfg.voicePrefix ++ t) = some newID)
    (hfresh : newID ∉ keys channels) :
    messageCreate cfg p channels
        { Author := A, Content := cfg.commandPrefix ++ lit "new " ++ t, ChannelID := textChannel,
          Mentions := mentions }
      = some ⟨(newID,
            { GuildID := guildID, ChannelID := newID, OwnerID := A.ID, Name := cfg.voicePrefix ++ t,
              OPs := [], Joined := false, Timestamp := p.now }) :: channels,
          [Call.GuildChannelCreate guildID (cfg.voicePrefix ++ t) (lit "voice"),
           Call.ChannelPermissionSet newID guildID (lit "role") 0 66060288,
           Call.ChannelPermissionSet newID A.ID (lit "member") 40894464 0,
           Call.ChannelMessageSend textChannel
             (lit "Created a new voice channel! Name: \x60" ++ (cfg.voicePrefix ++ t) ++ lit "\x60")]⟩ := by
  have hsplit : explodeCommand (lit "new " ++ t) = lit "new" :: splitSpace t :=
    splitSpace_word (lit "new") t (by decide)
  have hcontent : (cfg.commandPrefix ++ lit "new " ++ t) = b :: (lit "new " ++ t) := by
    simp [hpfx]
  rw [messageCreate_new hbot hcontent (by rw [stringOfByte_ascii hb, hpfx]) hsplit hlower,
    joinSpace_splitSpace]
  have helig : eligible channels A.ID voiceState.ChannelID = true := by
    unfold eligible
    rw [any_owner_eq_false hown]
    rcases hpres with h0 | hk
    · simp [h0]
    · simp [any_key_eq_false hk]
  have htl : ¬ t.length = 0 := fun h => ht (List.length_eq_zero.mp h)
  simp only [makeNewPrivateVoice, if_pos hlen, hcache, hvs, helig, if_true, if_neg htl,
    createChannel, hcreate, mapSet, mapDelete_of_not_mem hfresh]


/-- Witness of C4: "!new Game Night" with the prefix "PV: " yields the record named
"PV: Game Night". -/
theorem C4_new_creates_one_record_witness :
    messageCreate defaultConfig (platformOf [] [] "c1" 1000) []
        (messageOf "A" "!new Game Night" [])
      = some ⟨[recordOf "c1" "A" "PV: Game Night" [] false 1000],
          [Call.GuildChannelCreate (lit "g") (lit "PV: Game Night") (lit "voice"),
           Call.ChannelPermissionSet (lit "c1") (lit "g") (lit "role") 0 66060288,
           Call.ChannelPermissionSet (lit "c1") (lit "A") (lit "member") 40894464 0,
           Call.ChannelMessageSend (lit "t")
             (lit "Created a new voice channel! Name: \x60PV: Game Night\x60")]⟩ :=
  C4_new_creates_one_record defaultConfig (platformOf [] [] "c1" 1000) [] (userOf "A")
    (lit "Game Night") (lit "t") (lit "g") (lit "c1") [] 33 ⟨[], lit "0"⟩
    (by decide) (by decide) (by decide) (by decide) (by decide) (by decide) (by decide)
    (by decide) (by decide) (by decide) (by decide) (by decide)

/-- C5, counterexample. A owns the record of "c1" and is present in it; the title of the new
command has 97 bytes, 101 with the prefix "PV: ". The registry is unchanged and no channel is
created, but the reply is the one about the length, not the one about eligibility. -/
theorem C5_long_title_gets_length_reply :
    lit "A" ∈ owners [recordOf "c1" "A" "PV: room" [] true 900]
    ∧ messageCreate defaultConfig (platformOf [] [voiceStateOf "A" "c1"] "c2" 1000)
        [recordOf "c1" "A" "PV: room" [] true 900]
        (messageOfBytes (userOf "A") (lit "!new " ++ List.replicate 97 120))
      = some ⟨[recordOf "c1" "A" "PV: room" [] true 900],
          [Call.ChannelMessageSend (lit "t") (lit "<@A>, that does not fit!")]⟩
    ∧ Call.ChannelMessageSend (lit "t")
          (lit "<@A>, you either already own a channel or are in a private voice channel!")
        ∉ [Call.ChannelMessageSend (lit "t") (lit "<@A>, that does not fit!")] := by
  decide

theorem any_owner_eq_true {channels : Registry} {a : GoString} (h : a ∈ owners channels) :
    channels.any (fun v => decide (v.2.OwnerID = a)) = true := by
  simp only [owners, List.mem_map] at h
  obtain ⟨e, he, heq⟩ := h
  exact List.any_eq_true.mpr ⟨e, he, by simp [heq]⟩

theorem any_key_eq_true {channels : Registry} {k : GoString} (h : k ∈ keys channels) :
    channels.any (fun e => decide (e.1 = k)) = true := by
  simp only [keys, List.mem_map] at h
  obtain ⟨e, he, heq⟩ := h
  exact List.any_eq_true.mpr ⟨e, he, by simp [heq]⟩

/-- C5, amended. A new command (first byte the command prefix, first word lowering to "new") of
a user other than the bot who already owns a record, or whose voice state names a tracked
channel other than "0", leaves the registry as it is and issues one call only, a reply: the
one about eligibility when `len(voicePrefix)+len(title) <= 100`, the one about the length
otherwise. No channel is created. -/
theorem C5_ineligible_new_is_noop (cfg : Config) (p : Platform) (channels : Registry)
    (message : Message) (b : Nat) (content1 first guildID : GoString) (args : List GoString)
    (voiceState : VoiceState)
    (hbot : message.Author.ID ≠ cfg.uID) (hcontent : message.Content = b :: content1)
    (hpfx : stringOfByte b = cfg.commandPrefix)
    (hsplit : explodeCommand content1 = first :: args)
    (hlower : cfg.ToLower first = lit "new")
    (hcache : p.channelGuild message.ChannelID = some guildID)
    (hvs : getVoiceStateOfUser p message.Author.ID guildID = some voiceState)
    (hinel : message.Author.ID ∈ owners channels ∨
      (voiceState.ChannelID ≠ lit "0" ∧ voiceState.ChannelID ∈ keys channels)) :
    messageCreate cfg p channels message
      = some ⟨channels,
          [Call.ChannelMessageSend message.ChannelID
            (if cfg.voicePrefix.length + (joinSpace args).length ≤ 100 then
              lit "<@" ++ message.Author.ID
                ++ lit ">, you either already own a channel or are in a private voice channel!"
             else lit "<@" ++ message.Author.ID ++ lit ">, that does not fit!")]⟩ := by
  rw [messageCreate_new hbot hcontent hpfx hsplit hlower]
  have helig : eligible channels message.Author.ID voiceState.ChannelID = false := by
    unfold eligible
    rcases hinel with ho | ⟨h0, hk⟩
    · rw [any_owner_eq_true ho]; rfl
    · rw [any_key_eq_true hk]; simp [h0]
  unfold makeNewPrivateVoice
  by_cases hlen : cfg.voicePrefix.length + (joinSpace args).length ≤ 100
  · simp only [if_pos hlen, hcache, hvs, helig]
    rfl
  · simp only [if_neg hlen]

/-- Witness of C5: A owns "c1", is present in it, and sends "!new second room". -/
theorem C5_ineligible_new_is_noop_witness :
    messageCreate defaultConfig (platformOf [] [voiceStateOf "A" "c1"] "c2" 1000)
        [recordOf "c1" "A" "PV: room" [] true 900] (messageOf "A" "!new second room" [])
      = some ⟨[recordOf "c1" "A" "PV: room" [] true 900],
          [Call.ChannelMessageSend (lit "t")
            (lit "<@A>, you either already own a channel or are in a private voice channel!")]⟩ :=
  C5_ineligible_new_is_noop defaultConfig (platformOf [] [voiceStateOf "A" "c1"] "c2" 1000)
    [recordOf "c1" "A" "PV: room" [] true 900] (messageOf "A" "!new second room" []) 33
    (lit "new second room") (lit "new") (lit "g") [lit "second", lit "room"]
    (voiceStateOf "A" "c1")
    (by decide) (by decide) (by decide) (by decide) (by decide) (by decide) (by decide)
    (by decide)

/-- C6. The length test of `makeNewPrivateVoice` is made on the title as typed; an empty title
passes it and is then replaced by the user name. With the default prefix "PV: " and a user
name of 100 bytes the command "!new" creates a channel and a record whose name has 104
bytes; with a prefix of 90 bytes and the user name "nullstalgia1" the channel create call is
issued for a name of 102 bytes, and when the platform refuses it the handler panics. In
neither case is the command answered by the reply about the length. -/
theorem C6_empty_title_skips_length_check :
    messageCreate defaultConfig (platformOf [] [] "c1" 1000) []
        { Author := { ID := lit "A", Username := wideName }, Content := lit "!new",
          ChannelID := lit "t", Mentions := [] }
      = some ⟨[(lit "c1",
            { GuildID := lit "g", ChannelID := lit "c1", OwnerID := lit "A",
              Name := lit "PV: " ++ wideName, OPs := [], Joined := false, Timestamp := 1000 })],
          [Call.GuildChannelCreate (lit "g") (lit "PV: " ++ wideName) (lit "voice"),
           Call.ChannelPermissionSet (lit "c1") (lit "g") (lit "role") 0 66060288,
           Call.ChannelPermissionSet (lit "c1") (lit "A") (lit "member") 40894464 0,
           Call.ChannelMessageSend (lit "t")
             (lit "Created a new voice channel! Name: \x60" ++ (lit "PV: " ++ wideName)
               ++ lit "\x60")]⟩
    ∧ (lit "PV: " ++ wideName).length = 104
    ∧ (messageCreate (configWithVoicePrefix (List.replicate 90 80)) (platformOf [] [] "c1" 1000) []
        (messageOf "nullstalgia1" "!new" [])).map (fun out => out.channels.map (fun e => e.2.Name.length))
      = some [102]
    ∧ messageCreate (configWithVoicePrefix (List.replicate 90 80)) (platformRefusing 1000) []
        (messageOf "nullstalgia1" "!new" []) = none := by
  decide

theorem addInt_eq {a b : Int} (h1 : -2 ^ 63 ≤ a + b) (h2 : a + b < 2 ^ 63) : addInt a b = a + b := by
  unfold addInt
  norm_num at h1 h2 ⊢
  omega

theorem mapGet_append_of_not_mem {k : GoString} : ∀ {done : Registry} (m : Registry),
    k ∉ keys done → mapGet (done ++ m) k = mapGet m k := by
  intro done
  induction done with
  | nil => intro m _; rfl
  | cons e rest ih =>
    intro m h
    obtain ⟨k', r⟩ := e
    have hne : k' ≠ k := fun heq => h (by simp [keys, heq])
    have hrest : k ∉ keys rest := fun hm => h (by simp only [keys, List.map_cons, List.mem_cons]; exact Or.inr hm)
    show mapGet ((k', r) :: (rest ++ m)) k = mapGet m k
    rw [mapGet, if_neg hne]
    exact ih m hrest

theorem mapGet_of_mem {m : Registry} (hn : (keys m).Nodup) {k : GoString} {r : voiceChannel}
    (h : (k, r) ∈ m) : mapGet m k = some r := by
  induction m with
  | nil => cases h
  | cons e rest ih =>
    obtain ⟨k', r'⟩ := e
    simp only [keys, List.map_cons, List.nodup_cons] at hn
    rcases List.mem_cons.mp h with heq | hmem
    · cases heq; simp [mapGet]
    · have hne : k' ≠ k := fun heq => hn.1 (heq ▸ List.mem_map_of_mem Prod.fst hmem)
      rw [mapGet, if_neg hne]
      exact ih hn.2 hmem

theorem mem_of_mapGet {m : Registry} {k : GoString} {r : voiceChannel}
    (h : mapGet m k = some r) : (k, r) ∈ m := by
  induction m with
  | nil => simp [mapGet] at h
  | cons e rest ih =>
    obtain ⟨k', r'⟩ := e
    rw [mapGet] at h
    split at h
    · rename_i heq; cases h; subst heq; exact List.mem_cons_self _ _
    · exact List.mem_cons_of_mem _ (ih h)

theorem entry_eq_of_key_eq {m : Registry} (hn : (keys m).Nodup) {e1 e2 : GoString × voiceChannel}
    (h1 : e1 ∈ m) (h2 : e2 ∈ m) (h : e1.1 = e2.1) : e1 = e2 :=
  List.inj_on_of_nodup_map hn h1 h2 h

theorem mapDelete_middle {done rest : Registry} {k : GoString} {r : voiceChannel}
    (hn : (keys (done ++ (k, r) :: rest)).Nodup) :
    mapDelete (done ++ (k, r) :: rest) k = done ++ rest := by
  have hn' : (keys done ++ k :: keys rest).Nodup := by simpa [keys] using hn
  have hd : k ∉ keys done := fun hm =>
    (List.nodup_append.mp hn').2.2 hm (List.mem_cons_self _ _)
  have hr : k ∉ keys rest := (List.nodup_cons.mp (List.nodup_append.mp hn').2.1).1
  unfold mapDelete
  rw [List.filter_append, List.filter_cons]
  simp only [ne_eq, not_true_eq_false, decide_False, Bool.false_eq_true, if_false]
  have h1 := mapDelete_of_not_mem hd
  have h2 := mapDelete_of_not_mem hr
  unfold mapDelete at h1 h2
  simp only [ne_eq] at h1 h2
  rw [h1, h2]

/-- The sweep loop over the keys of the part `rest` of the map not yet visited, on a map whose
records are stored under their own IDs: the expired records that were never joined go, each
with one delete call, and the others stay as they are. -/
theorem sweepLoop_spec (delay now : Int) : ∀ (rest done : Registry), WF (done ++ rest) →
    sweepLoop delay now (keys rest) (done ++ rest)
      = ⟨done ++ rest.filter (fun e => !decide (addInt e.2.Timestamp delay ≤ now ∧ e.2.Joined = false)),
         (rest.filter (fun e => decide (addInt e.2.Timestamp delay ≤ now ∧ e.2.Joined = false))).map
           (fun e => Call.ChannelDelete e.1)⟩ := by
  intro rest
  induction rest with
  | nil => intro done _; simp [keys, sweepLoop]
  | cons e rest ih =>
    intro done hwf
    obtain ⟨k, r⟩ := e
    have hn' : (keys done ++ k :: keys rest).Nodup := by simpa [keys] using hwf.1
    have hd : k ∉ keys done := fun hm =>
      (List.nodup_append.mp hn').2.2 hm (List.mem_cons_self _ _)
    have hget : mapGet (done ++ (k, r) :: rest) k = some r := by
      rw [mapGet_append_of_not_mem _ hd]; simp [mapGet]
    have hid : r.ChannelID = k := hwf.2 (k, r) (by simp)
    show sweepLoop delay now (k :: keys rest) (done ++ (k, r) :: rest) = _
    rw [sweepLoop]
    simp only [hget]
    by_cases hc : addInt r.Timestamp delay ≤ now ∧ r.Joined = false
    · have hwf' : WF (done ++ rest) := by
        refine ⟨?_, fun e he => hwf.2 e ?_⟩
        · have : (keys (done ++ rest)).Sublist (keys (done ++ (k, r) :: rest)) :=
            keys_sublist (List.Sublist.append_left (List.sublist_cons_self _ _) _)
          exact hwf.1.sublist this
        · rcases List.mem_append.mp he with h | h
          · exact List.mem_append_left _ h
          · exact List.mem_append_right _ (List.mem_cons_of_mem _ h)
      rw [if_pos hc, hid, mapDelete_middle hwf.1, ih done hwf']
      simp [List.filter_cons, hc]
    · have hwf' : WF ((done ++ [(k, r)]) ++ rest) := by simpa using hwf
      have hstep := ih (done ++ [(k, r)]) hwf'
      rw [List.append_assoc] at hstep
      rw [if_neg hc]
      simp only [List.singleton_append] at hstep
      rw [hstep]
      simp only [List.filter_cons, decide_eq_false hc, Bool.not_false, Bool.false_eq_true,
        if_true, if_false, List.append_assoc, List.singleton_append]

theorem sweep_spec (cfg : Config) (now : Int) (channels : Registry) (hwf : WF channels) :
    sweep cfg now channels
      = ⟨channels.filter (fun e =>
            !decide (addInt e.2.Timestamp cfg.channelDeleteDelay ≤ now ∧ e.2.Joined = false)),
         (channels.filter (fun e =>
            decide (addInt e.2.Timestamp cfg.channelDeleteDelay ≤ now ∧ e.2.Joined = false))).map
           (fun e => Call.ChannelDelete e.1)⟩ := by
  have h := sweepLoop_spec cfg.channelDeleteDelay now channels [] (by simpa using hwf)
  simpa [sweep] using h


/-- After a sweep on a well-formed map, a record of the map has its key in the new map exactly
when the sweep condition fails on it, and then it is stored unchanged; a delete call for its
key is among the calls exactly when the condition holds. -/
theorem sweep_entry (cfg : Config) (now : Int) (channels : Registry) (hwf : WF channels)
    (e : GoString × voiceChannel) (he : e ∈ channels) :
    (e.1 ∈ keys (sweep cfg now channels).channels ↔
        ¬(addInt e.2.Timestamp cfg.channelDeleteDelay ≤ now ∧ e.2.Joined = false))
    ∧ (¬(addInt e.2.Timestamp cfg.channelDeleteDelay ≤ now ∧ e.2.Joined = false) →
        mapGet (sweep cfg now channels).channels e.1 = some e.2)
    ∧ (Call.ChannelDelete e.1 ∈ (sweep cfg now channels).calls ↔
        (addInt e.2.Timestamp cfg.channelDeleteDelay ≤ now ∧ e.2.Joined = false)) := by
  rw [sweep_spec cfg now channels hwf]
  refine ⟨⟨?_, ?_⟩, ?_, ⟨?_, ?_⟩⟩
  · intro hk hc
    simp only [keys, List.mem_map, List.mem_filter] at hk
    obtain ⟨e', ⟨he', hkeep⟩, heq⟩ := hk
    have : e' = e := entry_eq_of_key_eq hwf.1 he' he heq
    subst this
    simp [hc] at hkeep
  · intro hc
    simp only [keys, List.mem_map, List.mem_filter]
    exact ⟨e, ⟨he, by simp only [decide_eq_false hc, Bool.not_false]⟩, rfl⟩
  · intro hc
    have hsub : (keys (channels.filter (fun e =>
        !decide (addInt e.2.Timestamp cfg.channelDeleteDelay ≤ now ∧ e.2.Joined = false)))).Nodup :=
      hwf.1.sublist (keys_sublist (List.filter_sublist _))
    apply mapGet_of_mem hsub
    simp only [List.mem_filter]
    exact ⟨he, by simp only [decide_eq_false hc, Bool.not_false]⟩
  · intro hcall
    simp only [List.mem_map, List.mem_filter, Call.ChannelDelete.injEq] at hcall
    obtain ⟨e', ⟨he', hdel⟩, heq⟩ := hcall
    have : e' = e := entry_eq_of_key_eq hwf.1 he' he heq
    subst this
    exact of_decide_eq_true hdel
  · intro hc
    simp only [List.mem_map, List.mem_filter]
    exact ⟨e, ⟨he, decide_eq_true hc⟩, rfl⟩

/-- C7. On a sweep tick at time `now`, on a registry whose records are stored under their own
IDs and whose deadlines `Timestamp + channelDeleteDelay` do not overflow the Go `int`: a
record is deleted (its key leaves the registry and a delete call for its channel is issued)
if and only if `Joined` is false and `Timestamp + channelDeleteDelay <= now`; a record that
does not meet the condition stays under its key unchanged and no delete call is issued for
it; in particular with `Joined` false the timestamp `now - channelDeleteDelay - 1` is deleted
and `now - channelDeleteDelay + 1` is not; and the sweep puts nothing new in the registry. -/
theorem C7_sweep_deletes_exactly_expired (cfg : Config) (now : Int) (channels : Registry)
    (hwf : WF channels)
    (hrange : ∀ e ∈ channels, -2 ^ 63 ≤ e.2.Timestamp + cfg.channelDeleteDelay ∧
      e.2.Timestamp + cfg.channelDeleteDelay < 2 ^ 63) :
    (∀ e ∈ channels,
      ((e.1 ∉ keys (sweep cfg now channels).channels ∧
          Call.ChannelDelete e.2.ChannelID ∈ (sweep cfg now channels).calls) ↔
        (e.2.Joined = false ∧ e.2.Timestamp + cfg.channelDeleteDelay ≤ now))
      ∧ (¬(e.2.Joined = false ∧ e.2.Timestamp + cfg.channelDeleteDelay ≤ now) →
          mapGet (sweep cfg now channels).channels e.1 = some e.2 ∧
          Call.ChannelDelete e.2.ChannelID ∉ (sweep cfg now channels).calls)
      ∧ (e.2.Joined = false → e.2.Timestamp = now - cfg.channelDeleteDelay - 1 →
          e.1 ∉ keys (sweep cfg now channels).channels ∧
          Call.ChannelDelete e.2.ChannelID ∈ (sweep cfg now channels).calls)
      ∧ (e.2.Joined = false → e.2.Timestamp = now - cfg.channelDeleteDelay + 1 →
          mapGet (sweep cfg now channels).channels e.1 = some e.2 ∧
          Call.ChannelDelete e.2.ChannelID ∉ (sweep cfg now channels).calls))
    ∧ ∀ e ∈ (sweep cfg now channels).channels, e ∈ channels := by
  have key : ∀ e ∈ channels,
      ((e.1 ∉ keys (sweep cfg now channels).channels ∧
          Call.ChannelDelete e.2.ChannelID ∈ (sweep cfg now channels).calls) ↔
        (e.2.Joined = false ∧ e.2.Timestamp + cfg.channelDeleteDelay ≤ now))
      ∧ (¬(e.2.Joined = false ∧ e.2.Timestamp + cfg.channelDeleteDelay ≤ now) →
          mapGet (sweep cfg now channels).channels e.1 = some e.2 ∧
          Call.ChannelDelete e.2.ChannelID ∉ (sweep cfg now channels).calls) := by
    intro e he
    obtain ⟨h1, h2, h3⟩ := sweep_entry cfg now channels hwf e he
    rw [addInt_eq (hrange e he).1 (hrange e he).2] at h1 h2 h3
    rw [hwf.2 e he]
    constructor
    · constructor
      · rintro ⟨-, hcall⟩
        exact ⟨(h3.mp hcall).2, (h3.mp hcall).1⟩
      · rintro ⟨hj, ht⟩
        exact ⟨fun hk => h1.mp hk ⟨ht, hj⟩, h3.mpr ⟨ht, hj⟩⟩
    · intro hc
      have hc' : ¬(e.2.Timestamp + cfg.channelDeleteDelay ≤ now ∧ e.2.Joined = false) :=
        fun h => hc ⟨h.2, h.1⟩
      exact ⟨h2 hc', fun hcall => hc' (h3.mp hcall)⟩
  refine ⟨fun e he => ⟨(key e he).1, (key e he).2, ?_, ?_⟩, ?_⟩
  · intro hj ht
    exact (key e he).1.mpr ⟨hj, by rw [ht]; omega⟩
  · intro hj ht
    exact (key e he).2 (fun h => by have := h.2; rw [ht] at this; omega)
  · intro e he
    rw [sweep_spec cfg now channels hwf] at he
    exact (List.mem_filter.mp he).1

/-- Witness of C7, with the delay 30 at time 1000: the record created at 969 and never joined
goes, the one created at 971 stays, and so does the joined one created at 900. -/
theorem C7_sweep_deletes_exactly_expired_witness :
    sweep defaultConfig 1000
        [recordOf "c1" "A" "PV: a" [] false 969, recordOf "c2" "B" "PV: b" [] false 971,
         recordOf "c3" "C" "PV: c" [] true 900]
      = ⟨[recordOf "c2" "B" "PV: b" [] false 971, recordOf "c3" "C" "PV: c" [] true 900],
         [Call.ChannelDelete (lit "c1")]⟩
    ∧ ∀ e ∈ (sweep defaultConfig 1000
        [recordOf "c1" "A" "PV: a" [] false 969, recordOf "c2" "B" "PV: b" [] false 971,
         recordOf "c3" "C" "PV: c" [] true 900]).channels,
        e ∈ [recordOf "c1" "A" "PV: a" [] false 969, recordOf "c2" "B" "PV: b" [] false 971,
          recordOf "c3" "C" "PV: c" [] true 900] :=
  ⟨by decide,
   (C7_sweep_deletes_exactly_expired defaultConfig 1000
      [recordOf "c1" "A" "PV: a" [] false 969, recordOf "c2" "B" "PV: b" [] false 971,
       recordOf "c3" "C" "PV: c" [] true 900] (by decide) (by decide)).2⟩

theorem perm_pair {α : Type} {a b : α} {l : List α} (h : l.Perm [a, b]) :
    l = [a, b] ∨ l = [b, a] := by
  cases l with
  | nil => exact absurd h.length_eq (by simp)
  | cons x l' =>
    have hx : x ∈ [a, b] := h.subset (List.mem_cons_self _ _)
    simp only [List.mem_cons, List.mem_singleton, List.not_mem_nil, or_false] at hx
    rcases hx with rfl | rfl
    · left
      have := List.perm_singleton.mp (List.Perm.cons_inv h)
      rw [this]
    · right
      have h2 : (x :: l').Perm (x :: [a]) := h.trans (List.Perm.swap x a [])
      have := List.perm_singleton.mp (List.Perm.cons_inv h2)
      rw [this]

/-- C8. A has just created "c1" (time 1000, never joined, delay 30), B owns "c2"; at time 1010
B joins "c2". Whatever order the range over the map takes, the handler issues a delete call
for the empty channel "c1", whose grace period is not over, and keeps its record. -/
theorem C8_fresh_channel_is_deleted (order : Nat → Registry → Registry)
    (horder : ∀ i m, (order i m).Perm m) :
    VoiceStateUpdate defaultConfig
        (platformOf [⟨lit "c1", lit "PV: a", lit "voice"⟩, ⟨lit "c2", lit "PV: b", lit "voice"⟩]
          [voiceStateOf "B" "c2"] "c9" 1010)
        order
        [recordOf "c1" "A" "PV: a" [] false 1000, recordOf "c2" "B" "PV: b" [] false 990]
        { GuildID := lit "g", ChannelID := lit "c2", UserID := lit "B" }
      = some ⟨[recordOf "c1" "A" "PV: a" [] false 1000, recordOf "c2" "B" "PV: b" [] true 990],
          [Call.ChannelDelete (lit "c1")]⟩ := by
  have hp := perm_pair (horder 0
    [recordOf "c1" "A" "PV: a" [] false 1000, recordOf "c2" "B" "PV: b" [] true 990])
  have hm : markJoined (lit "c2")
      [recordOf "c1" "A" "PV: a" [] false 1000, recordOf "c2" "B" "PV: b" [] false 990]
      = [recordOf "c1" "A" "PV: a" [] false 1000, recordOf "c2" "B" "PV: b" [] true 990] := by
    decide
  have hg : getVoiceChannelsAndStates
      (platformOf [⟨lit "c1", lit "PV: a", lit "voice"⟩, ⟨lit "c2", lit "PV: b", lit "voice"⟩]
          [voiceStateOf "B" "c2"] "c9" 1010) (lit "g")
      = some ([⟨lit "c1", lit "PV: a", lit "voice"⟩, ⟨lit "c2", lit "PV: b", lit "voice"⟩],
          [voiceStateOf "B" "c2"]) := by decide
  have h1 : ¬ (lit "PV: a").length ≤ defaultConfig.voicePrefix.length := by decide
  have h2 : ¬ (lit "PV: a").take defaultConfig.voicePrefix.length ≠ defaultConfig.voicePrefix := by
    decide
  have h3 : getUserCountInVoiceChannel (lit "c1") [voiceStateOf "B" "c2"] = 0 := by decide
  have h4 : ¬ (lit "PV: b").length ≤ defaultConfig.voicePrefix.length := by decide
  have h5 : ¬ (lit "PV: b").take defaultConfig.voicePrefix.length ≠ defaultConfig.voicePrefix := by
    decide
  have h6 : ¬ getUserCountInVoiceChannel (lit "c2") [voiceStateOf "B" "c2"] = 0 := by decide
  have hloop : emptyChannelLoop defaultConfig.channelDeleteDelay 1010 (lit "c1")
      (order 0 [recordOf "c1" "A" "PV: a" [] false 1000, recordOf "c2" "B" "PV: b" [] true 990])
      [recordOf "c1" "A" "PV: a" [] false 1000, recordOf "c2" "B" "PV: b" [] true 990]
      = ⟨[recordOf "c1" "A" "PV: a" [] false 1000, recordOf "c2" "B" "PV: b" [] true 990],
          [Call.ChannelDelete (lit "c1")]⟩ := by
    rcases hp with h | h <;> rw [h] <;> decide
  simp only [VoiceStateUpdate, hg, hm]
  show some (scanChannels defaultConfig 1010 order [voiceStateOf "B" "c2"] 0 _ _) = _
  simp only [scanChannels, h1, h2, h3, h4, h5, h6, if_false, if_true, hloop, List.append_nil]

/-- Witness of C8, with the range producing the entries in list order. -/
theorem C8_fresh_channel_is_deleted_witness :
    VoiceStateUpdate defaultConfig
        (platformOf [⟨lit "c1", lit "PV: a", lit "voice"⟩, ⟨lit "c2", lit "PV: b", lit "voice"⟩]
          [voiceStateOf "B" "c2"] "c9" 1010)
        (fun _ m => m)
        [recordOf "c1" "A" "PV: a" [] false 1000, recordOf "c2" "B" "PV: b" [] false 990]
        { GuildID := lit "g", ChannelID := lit "c2", UserID := lit "B" }
      = some ⟨[recordOf "c1" "A" "PV: a" [] false 1000, recordOf "c2" "B" "PV: b" [] true 990],
          [Call.ChannelDelete (lit "c1")]⟩ :=
  C8_fresh_channel_is_deleted (fun _ m => m) (fun _ m => List.Perm.refl m)

/-- The op branch is a no-op when the voice channel of the author is not a key of the map. -/
theorem opBranch_untracked {p : Platform} {channels : Registry} {message : Message}
    {guildID : GoString} {voiceState : VoiceState}
    (hcache : p.channelGuild message.ChannelID = some guildID)
    (hvs : getVoiceStateOfUser p message.Author.ID guildID = some voiceState)
    (hun : mapGet channels voiceState.ChannelID = none) :
    opBranch p channels message = some ⟨channels, []⟩ := by
  unfold opBranch
  split
  · simp only [hcache, hvs, isOpLoop_untracked hun, Bool.false_eq_true, if_false]
  · rfl

/-- The kick branch is a no-op when the voice channel of the author is not a key of the map. -/
theorem kickBranch_untracked {p : Platform} {channels : Registry} {message : Message}
    {guildID : GoString} {voiceState : VoiceState}
    (hcache : p.channelGuild message.ChannelID = some guildID)
    (hvs : getVoiceStateOfUser p message.Author.ID guildID = some voiceState)
    (hun : mapGet channels voiceState.ChannelID = none) :
    kickBranch p channels message = some ⟨channels, []⟩ := by
  unfold kickBranch
  split
  · simp only [hcache, hvs, isOpLoop_untracked hun, Bool.false_eq_true, if_false]
  · rfl

/-- The deop branch with a mention panics when the voice channel of the author is not a key of
the map. -/
theorem deopBranch_untracked {p : Platform} {channels : Registry} {message : Message}
    {guildID : GoString} {voiceState : VoiceState}
    (hmentions : message.Mentions.length > 0)
    (hcache : p.channelGuild message.ChannelID = some guildID)
    (hvs : getVoiceStateOfUser p message.Author.ID guildID = some voiceState)
    (hun : mapGet channels voiceState.ChannelID = none) :
    deopBranch p channels message = none := by
  unfold deopBranch
  simp only [if_pos hmentions, hcache, hvs, hun]

/-- C9. The owner A of "c1" is in no voice channel and mentions B. The op and kick commands
are no-ops, but the deop command reads `channels["0"].OPs` through the nil pointer of the
missing key and panics; the same happens when A sits in the untracked channel "v7". -/
theorem C9_deop_outside_tracked_channel_panics :
    messageCreate defaultConfig (platformOf [] [] "c2" 1000)
        [recordOf "c1" "A" "PV: room" ["D"] true 900] (messageOf "A" "!op @B" ["B"])
      = some ⟨[recordOf "c1" "A" "PV: room" ["D"] true 900], []⟩
    ∧ messageCreate defaultConfig (platformOf [] [] "c2" 1000)
        [recordOf "c1" "A" "PV: room" ["D"] true 900] (messageOf "A" "!kick @B" ["B"])
      = some ⟨[recordOf "c1" "A" "PV: room" ["D"] true 900], []⟩
    ∧ messageCreate defaultConfig (platformOf [] [] "c2" 1000)
        [recordOf "c1" "A" "PV: room" ["D"] true 900] (messageOf "A" "!deop @B" ["B"])
      = none
    ∧ messageCreate defaultConfig (platformOf [] [voiceStateOf "A" "v7"] "c2" 1000)
        [recordOf "c1" "A" "PV: room" ["D"] true 900] (messageOf "A" "!deop @B" ["B"])
      = none := by
  decide

/-- With fuel for the rest of the list, the removal loop from index `i` keeps the first `i`
elements and filters the IDs of the mentions out of the others. -/
theorem removalLoop_spec (mentions : List User) : ∀ (fuel i : Nat) (ops : List GoString),
    ops.length - i ≤ fuel →
    removalLoop mentions fuel i ops
      = ops.take i ++ (ops.drop i).filter (fun v => !mentions.any (fun rem => decide (v = rem.ID))) := by
  intro fuel
  induction fuel with
  | zero =>
    intro i ops h
    have hle : ops.length ≤ i := by omega
    simp [removalLoop, List.take_of_length_le hle, List.drop_eq_nil_of_le hle]
  | succ fuel ih =>
    intro i ops h
    rw [removalLoop]
    by_cases hi : i < ops.length
    · rw [dif_pos hi]
      have hdrop : ops.drop i = ops.get ⟨i, hi⟩ :: ops.drop (i + 1) := by
        simp
      by_cases hx : mentions.any (fun rem => decide (ops.get ⟨i, hi⟩ = rem.ID)) = true
      · rw [if_pos hx]
        have hlen : (ops.take i).length = i := List.length_take_of_le (Nat.le_of_lt hi)
        have hlen' : (ops.take i ++ ops.drop (i + 1)).length - i ≤ fuel := by
          simp only [List.length_append, List.length_take, List.length_drop]
          omega
        rw [ih i _ hlen', hdrop, List.filter_cons_of_neg (by simp only [hx, Bool.not_true, Bool.false_eq_true, not_false_eq_true])]
        have e1 : (ops.take i ++ ops.drop (i + 1)).take i = ops.take i := by
          rw [List.take_append_of_le_length (by omega)]
          exact List.take_of_length_le (by omega)
        have e2 : (ops.take i ++ ops.drop (i + 1)).drop i = ops.drop (i + 1) := by
          exact List.drop_left' hlen
        rw [e1, e2]
      · rw [if_neg hx]
        have hlen' : ops.length - (i + 1) ≤ fuel := by omega
        rw [ih (i + 1) ops hlen', hdrop, List.filter_cons_of_pos (by simp only [hx, Bool.not_false])]
        have e1 : ops.take (i + 1) = ops.take i ++ [ops.get ⟨i, hi⟩] := by
          simp
        rw [e1, List.append_assoc, List.singleton_append]
    · rw [dif_neg hi]
      have hle : ops.length ≤ i := by omega
      simp [List.take_of_length_le hle, List.drop_eq_nil_of_le hle]

theorem removalLoop_eq_filter (mentions : List User) (ops : List GoString) :
    removalLoop mentions ops.length 0 ops
      = ops.filter (fun v => !mentions.any (fun rem => decide (v = rem.ID))) := by
  rw [removalLoop_spec mentions ops.length 0 ops (by omega)]
  simp


/-- Writing through the pointer of a key that is in the map: the record under the key is
replaced by its image, the other keys keep theirs. -/
theorem mapModify_of_mapGet (f : voiceChannel → voiceChannel) (k : GoString) :
    ∀ (m : Registry) (r : voiceChannel), mapGet m k = some r →
      ∃ m', mapModify f k m = some m' ∧ mapGet m' k = some (f r) ∧
        ∀ k', k' ≠ k → mapGet m' k' = mapGet m k' := by
  intro m
  induction m with
  | nil => intro r h; simp [mapGet] at h
  | cons e rest ih =>
    intro r h
    obtain ⟨k0, r0⟩ := e
    rw [mapGet] at h
    by_cases hk : k0 = k
    · rw [if_pos hk] at h
      cases h
      refine ⟨(k0, f r) :: rest, by simp [mapModify, hk], by simp [mapGet, hk], ?_⟩
      intro k' hk'
      have : k0 ≠ k' := fun h => hk' (h ▸ hk)
      simp [mapGet, this]
    · rw [if_neg hk] at h
      obtain ⟨m', h1, h2, h3⟩ := ih r h
      refine ⟨(k0, r0) :: m', by simp [mapModify, hk, h1], by simp [mapGet, hk, h2], ?_⟩
      intro k' hk'
      by_cases hk0 : k0 = k'
      · simp [mapGet, hk0]
      · simp [mapGet, hk0, h3 k' hk']

theorem not_any_mention (mentions : List User) (v : GoString) :
    (!mentions.any (fun rem => decide (v = rem.ID))) = decide (v ∉ mentions.map User.ID) := by
  by_cases h : v ∈ mentions.map User.ID
  · have : mentions.any (fun rem => decide (v = rem.ID)) = true := by
      obtain ⟨u, hu, hv⟩ := List.mem_map.mp h
      exact List.any_eq_true.mpr ⟨u, hu, by simp [hv]⟩
    simp [this, h]
  · have : mentions.any (fun rem => decide (v = rem.ID)) = false := by
      rw [List.any_eq_false]
      intro u hu
      simp only [decide_eq_true_eq]
      intro hv
      exact h (List.mem_map.mpr ⟨u, hu, hv.symm⟩)
    simp only [this, Bool.not_false, decide_eq_true h]

/-- The mention loop of the kick branch on a tracked channel: it does not panic, issues one
permission call per mention, and once a mention has been handled the `OPs` of the channel are
the old ones without the IDs of the mentions of the message. -/
theorem kickMentions_spec (mentions : List User) (vc : GoString) :
    ∀ (ms : List User) (channels : Registry) (r : voiceChannel),
      (∀ u ∈ ms, u ∈ mentions) → mapGet channels vc = some r →
      ∃ out, kickMentions mentions vc ms channels = some out ∧
        mapGet out.channels vc = some { r with OPs :=
          if ms = [] then r.OPs else r.OPs.filter (fun v => decide (v ∉ mentions.map User.ID)) } ∧
        (∀ k', k' ≠ vc → mapGet out.channels k' = mapGet channels k') ∧
        out.calls = ms.map (fun u => Call.ChannelPermissionSet vc u.ID (lit "member") 0 0) := by
  intro ms
  induction ms with
  | nil => intro channels r _ h; exact ⟨⟨channels, []⟩, rfl, by simpa using h, fun _ _ => rfl, rfl⟩
  | cons u rest ih =>
    intro channels r hsub hget
    obtain ⟨m1, h1, g1, o1⟩ := mapModify_of_mapGet (fun r => { r with OPs := r.OPs ++ [u.ID] }) vc
      channels r hget
    obtain ⟨m2, h2, g2, o2⟩ := mapModify_of_mapGet
      (fun r => { r with OPs := removalLoop mentions r.OPs.length 0 r.OPs }) vc m1 _ g1
    have hu : u.ID ∈ mentions.map User.ID :=
      List.mem_map_of_mem User.ID (hsub u (List.mem_cons_self _ _))
    have hfun : (fun v => !mentions.any (fun rem => decide (v = rem.ID)))
        = (fun v => decide (v ∉ mentions.map User.ID)) := funext (not_any_mention mentions)
    have hops : removalLoop mentions (r.OPs ++ [u.ID]).length 0 (r.OPs ++ [u.ID])
        = r.OPs.filter (fun v => decide (v ∉ mentions.map User.ID)) := by
      have hd : decide (u.ID ∉ mentions.map User.ID) = false := decide_eq_false (not_not.mpr hu)
      rw [removalLoop_eq_filter, hfun, List.filter_append]
      simp only [List.filter_cons, List.filter_nil, hd, Bool.false_eq_true, if_false,
        List.append_nil]
    dsimp only at g2
    rw [hops] at g2
    obtain ⟨out, h3, g3, o3, c3⟩ := ih m2 _ (fun x hx => hsub x (List.mem_cons_of_mem _ hx)) g2
    refine ⟨⟨out.channels, Call.ChannelPermissionSet vc u.ID (lit "member") 0 0 :: out.calls⟩,
      ?_, ?_, ?_, ?_⟩
    · simp only [kickMentions, h1, h2, h3]
    · rw [g3]
      by_cases hrest : rest = []
      · simp [hrest]
      · simp [hrest, List.filter_filter]
    · intro k' hk'
      rw [o3 k' hk', o2 k' hk', o1 k' hk']
    · simp [c3]

/-- A message whose first byte is the command prefix and whose first word lowers to "kick" is
handled by the kick branch. -/
theorem messageCreate_kick {cfg : Config} {p : Platform} {channels : Registry} {message : Message}
    {b : Nat} {content1 first : GoString} {args : List GoString}
    (hbot : message.Author.ID ≠ cfg.uID) (hcontent : message.Content = b :: content1)
    (hpfx : stringOfByte b = cfg.commandPrefix)
    (hsplit : explodeCommand content1 = first :: args)
    (hlower : cfg.ToLower first = lit "kick") :
    messageCreate cfg p channels message = kickBranch p channels message := by
  unfold messageCreate
  rw [if_neg hbot, hcontent]
  simp only [hpfx, ne_eq, not_true_eq_false, if_false, hsplit, hlower]
  rw [if_pos (by decide), if_neg (by decide), if_neg (by decide), if_neg (by decide),
    if_neg (by decide), if_neg (by decide), if_pos trivial]

/-- What the kick branch does once its authorization loop has accepted the author. A kick
command (first byte the command prefix, first word lowering to "kick") with at least one
mention, from a user other than the bot whose voice state names a tracked channel with record
`r` and for whom `isOpLoop` is true: the handler does not panic, and afterwards the record of
the channel is `r` with the `OPs` list replaced by the old list without the IDs of the
mentions, the other IDs in their old order; so no mentioned ID is in `OPs`. By `isOpLoop_iff`
the loop is true for the owner, not for an operator. -/
theorem kick_by_accepted_author_filters_OPs (cfg : Config) (p : Platform) (channels : Registry)
    (message : Message) (b : Nat) (content1 first guildID : GoString) (args : List GoString)
    (voiceState : VoiceState) (r : voiceChannel)
    (hbot : message.Author.ID ≠ cfg.uID) (hcontent : message.Content = b :: content1)
    (hpfx : stringOfByte b = cfg.commandPrefix)
    (hsplit : explodeCommand content1 = first :: args)
    (hlower : cfg.ToLower first = lit "kick")
    (hmentions : message.Mentions ≠ [])
    (hcache : p.channelGuild message.ChannelID = some guildID)
    (hvs : getVoiceStateOfUser p message.Author.ID guildID = some voiceState)
    (htracked : mapGet channels voiceState.ChannelID = some r)
    (hauth : isOpLoop voiceState.ChannelID message.Author.ID channels = true) :
    ∃ out, messageCreate cfg p channels message = some out ∧
      mapGet out.channels voiceState.ChannelID
        = some { r with OPs := r.OPs.filter (fun v => decide (v ∉ message.Mentions.map User.ID)) } ∧
      (∀ r', mapGet out.channels voiceState.ChannelID = some r' →
        ∀ u ∈ message.Mentions, u.ID ∉ r'.OPs) := by
  obtain ⟨out1, h1, g1, -, -⟩ := kickMentions_spec message.Mentions voiceState.ChannelID
    message.Mentions channels r (fun _ h => h) htracked
  rw [if_neg hmentions] at g1
  have hlen : message.Mentions.length > 0 := List.length_pos.mpr hmentions
  refine ⟨⟨out1.channels, out1.calls ++ [Call.ChannelMessageSend message.ChannelID
      (lit "They can no longer join/speak in your channel, \x60" ++ r.Name ++ lit "\x60")]⟩,
    ?_, g1, ?_⟩
  · rw [messageCreate_kick hbot hcontent hpfx hsplit hlower]
    simp only [kickBranch, if_pos hlen, hcache, hvs, hauth, if_true, h1, g1]
  · intro r' hr' u hu hmem
    rw [g1] at hr'
    cases hr'
    have := (List.mem_filter.mp hmem).2
    simp only [decide_eq_true_eq] at this
    exact this (List.mem_map_of_mem User.ID hu)

/-- An instance: the owner A of "c1", whose operators are D, C and E, kicks C and B. -/
theorem kick_by_accepted_author_filters_OPs_example :
    ∃ out, messageCreate defaultConfig (platformOf [] [voiceStateOf "A" "c1"] "c2" 1000)
        [recordOf "c1" "A" "PV: room" ["D", "C", "E"] true 900] (messageOf "A" "!kick @C @B" ["C", "B"])
        = some out ∧
      mapGet out.channels (lit "c1") = some (recordOf "c1" "A" "PV: room" ["D", "E"] true 900).2 ∧
      (∀ r', mapGet out.channels (lit "c1") = some r' →
        ∀ u ∈ [userOf "C", userOf "B"], u.ID ∉ r'.OPs) :=
  kick_by_accepted_author_filters_OPs defaultConfig (platformOf [] [voiceStateOf "A" "c1"] "c2" 1000)
    [recordOf "c1" "A" "PV: room" ["D", "C", "E"] true 900] (messageOf "A" "!kick @C @B" ["C", "B"])
    33 (lit "kick @C @B") (lit "kick") (lit "g") [lit "@C", lit "@B"] (voiceStateOf "A" "c1")
    (recordOf "c1" "A" "PV: room" ["D", "C", "E"] true 900).2
    (by decide) (by decide) (by decide) (by decide) (by decide) (by decide) (by decide)
    (by decide) (by decide) (by decide)

/-- C10. B is an operator of "c1" (owner A, `OPs` [B, C]) and sits in it. The authorization loop
of the kick branch compares the elements of `OPs` with the key of the channel, as in C1, and
rejects B: the message "!kick @C" of B issues no call and leaves the registry as it is, with
the mentioned C still in `OPs`. The same message from the owner A is accepted and leaves `OPs`
as [B]. -/
theorem C10_operator_kick_leaves_mention_in_OPs :
    lit "B" ∈ (recordOf "c1" "A" "PV: room" ["B", "C"] true 900).2.OPs
    ∧ isOpLoop (lit "c1") (lit "B") [recordOf "c1" "A" "PV: room" ["B", "C"] true 900] = false
    ∧ messageCreate defaultConfig
        (platformOf [] [voiceStateOf "A" "c1", voiceStateOf "B" "c1"] "c2" 1000)
        [recordOf "c1" "A" "PV: room" ["B", "C"] true 900] (messageOf "B" "!kick @C" ["C"])
      = some ⟨[recordOf "c1" "A" "PV: room" ["B", "C"] true 900], []⟩
    ∧ lit "C" ∈ (recordOf "c1" "A" "PV: room" ["B", "C"] true 900).2.OPs
    ∧ (messageCreate defaultConfig
        (platformOf [] [voiceStateOf "A" "c1", voiceStateOf "B" "c1"] "c2" 1000)
        [recordOf "c1" "A" "PV: room" ["B", "C"] true 900]
        (messageOf "A" "!kick @C" ["C"])).map (fun out => out.channels)
      = some [recordOf "c1" "A" "PV: room" ["B"] true 900] := by
  decide

/-- A message of another user than the bot whose first byte is the command prefix is
dispatched on the lowered first word of the rest. -/
theorem messageCreate_dispatch {cfg : Config} {p : Platform} {channels : Registry}
    {message : Message} {b : Nat} {content1 first : GoString} {args : List GoString}
    (hbot : message.Author.ID ≠ cfg.uID) (hcontent : message.Content = b :: content1)
    (hpfx : stringOfByte b = cfg.commandPrefix)
    (hsplit : explodeCommand content1 = first :: args) :
    messageCreate cfg p channels message
      = if stringInSlice (cfg.ToLower first) commands then
          if cfg.ToLower first = lit "new" then
            makeNewPrivateVoice cfg p channels (joinSpace args) message
          else if cfg.ToLower first = lit "invite" ∨ cfg.ToLower first = lit "allow" then
            inviteBranch p channels message
          else if cfg.ToLower first = lit "op" then opBranch p channels message
          else if cfg.ToLower first = lit "deop" then deopBranch p channels message
          else if cfg.ToLower first = lit "delete" then deleteBranch p channels message
          else if cfg.ToLower first = lit "kick" then kickBranch p channels message
          else some ⟨channels, []⟩
        else some ⟨channels, []⟩ := by
  unfold messageCreate
  rw [if_neg hbot, hcontent]
  simp only [hpfx, ne_eq, not_true_eq_false, if_false, hsplit]

theorem messageCreate_deop {cfg : Config} {p : Platform} {channels : Registry} {message : Message}
    {b : Nat} {content1 first : GoString} {args : List GoString}
    (hbot : message.Author.ID ≠ cfg.uID) (hcontent : message.Content = b :: content1)
    (hpfx : stringOfByte b = cfg.commandPrefix)
    (hsplit : explodeCommand content1 = first :: args)
    (hlower : cfg.ToLower first = lit "deop") :
    messageCreate cfg p channels message = deopBranch p channels message := by
  rw [messageCreate_dispatch hbot hcontent hpfx hsplit, hlower]
  rw [if_pos (by decide), if_neg (by decide), if_neg (by decide), if_neg (by decide),
    if_pos rfl]

theorem messageCreate_op {cfg : Config} {p : Platform} {channels : Registry} {message : Message}
    {b : Nat} {content1 first : GoString} {args : List GoString}
    (hbot : message.Author.ID ≠ cfg.uID) (hcontent : message.Content = b :: content1)
    (hpfx : stringOfByte b = cfg.commandPrefix)
    (hsplit : explodeCommand content1 = first :: args)
    (hlower : cfg.ToLower first = lit "op") :
    messageCreate cfg p channels message = opBranch p channels message := by
  rw [messageCreate_dispatch hbot hcontent hpfx hsplit, hlower]
  rw [if_pos (by decide), if_neg (by decide), if_neg (by decide), if_pos rfl]

theorem messageCreate_invite {cfg : Config} {p : Platform} {channels : Registry}
    {message : Message} {b : Nat} {content1 first : GoString} {args : List GoString}
    (hbot : message.Author.ID ≠ cfg.uID) (hcontent : message.Content = b :: content1)
    (hpfx : stringOfByte b = cfg.commandPrefix)
    (hsplit : explodeCommand content1 = first :: args)
    (hlower : cfg.ToLower first = lit "invite" ∨ cfg.ToLower first = lit "allow") :
    messageCreate cfg p channels message = inviteBranch p channels message := by
  rw [messageCreate_dispatch hbot hcontent hpfx hsplit]
  rcases hlower with h | h
  · rw [h, if_pos (by decide), if_neg (by decide), if_pos (Or.inl rfl)]
  · rw [h, if_pos (by decide), if_neg (by decide), if_pos (Or.inr rfl)]

/-- Writing a record back as it is leaves the map as it is. -/
theorem mapModify_fixed {f : voiceChannel → voiceChannel} {k : GoString} :
    ∀ {m : Registry} {r : voiceChannel}, mapGet m k = some r → f r = r →
      mapModify f k m = some m := by
  intro m
  induction m with
  | nil => intro r h; simp [mapGet] at h
  | cons e rest ih =>
    intro r h hf
    obtain ⟨k0, r0⟩ := e
    rw [mapGet] at h
    by_cases hk : k0 = k
    · rw [if_pos hk] at h
      cases h
      simp [mapModify, hk, hf]
    · rw [if_neg hk] at h
      simp [mapModify, hk, ih h hf]

/-- The deop branch on a tracked channel whose author the authorization loop accepts: no panic,
the record of the channel gets its `OPs` filtered, every other key keeps its record. -/
theorem deopBranch_spec {p : Platform} {channels : Registry} {message : Message}
    {guildID : GoString} {voiceState : VoiceState} {r : voiceChannel}
    (hmentions : message.Mentions ≠ [])
    (hcache : p.channelGuild message.ChannelID = some guildID)
    (hvs : getVoiceStateOfUser p message.Author.ID guildID = some voiceState)
    (htracked : mapGet channels voiceState.ChannelID = some r)
    (hauth : isOpLoop voiceState.ChannelID message.Author.ID channels = true) :
    ∃ out, deopBranch p channels message = some out ∧
      mapModify
          (fun r => { r with OPs := r.OPs.filter (fun v => decide (v ∉ message.Mentions.map User.ID)) })
          voiceState.ChannelID channels = some out.channels ∧
      mapGet out.channels voiceState.ChannelID
        = some { r with OPs := r.OPs.filter (fun v => decide (v ∉ message.Mentions.map User.ID)) } ∧
      (∀ k, k ≠ voiceState.ChannelID → mapGet out.channels k = mapGet channels k) := by
  have hfun : (fun r : voiceChannel =>
      { r with OPs := removalLoop message.Mentions r.OPs.length 0 r.OPs })
      = (fun r => { r with OPs := r.OPs.filter (fun v => decide (v ∉ message.Mentions.map User.ID)) }) := by
    funext r
    rw [removalLoop_eq_filter]
    congr 2
    exact funext (not_any_mention message.Mentions)
  obtain ⟨m1, h1, g1, o1⟩ := mapModify_of_mapGet
    (fun r => { r with OPs := r.OPs.filter (fun v => decide (v ∉ message.Mentions.map User.ID)) })
    voiceState.ChannelID channels r htracked
  have hlen : message.Mentions.length > 0 := List.length_pos.mpr hmentions
  have hd : ∃ calls, deopBranch p channels message = some ⟨m1, calls⟩ := by
    unfold deopBranch
    simp only [if_pos hlen, hcache, hvs, htracked, hauth, if_true, hfun, h1, g1]
    exact ⟨_, rfl⟩
  obtain ⟨calls, hd⟩ := hd
  exact ⟨⟨m1, calls⟩, hd, h1, g1, o1⟩


/-- What the deop branch does once its authorization loop has accepted the author. A deop
command (first byte the command prefix, first word lowering to "deop") with at least one
mention, from a user other than the bot whose voice state names a tracked channel with record
`r` and for whom `isOpLoop` is true: the handler does not panic; afterwards the record of the
channel is `r` with `OPs` replaced by the old list without every occurrence of the IDs of the
mentions, the rest in its old order, and every other key keeps its record; and handling the
same message once more returns and leaves the registry exactly as the first handling left it.
By `isOpLoop_iff` the loop is true for the owner, not for an operator. -/
theorem deop_by_accepted_author_filters_OPs (cfg : Config) (p : Platform) (channels : Registry)
    (message : Message) (b : Nat) (content1 first guildID : GoString) (args : List GoString)
    (voiceState : VoiceState) (r : voiceChannel)
    (hbot : message.Author.ID ≠ cfg.uID) (hcontent : message.Content = b :: content1)
    (hpfx : stringOfByte b = cfg.commandPrefix)
    (hsplit : explodeCommand content1 = first :: args)
    (hlower : cfg.ToLower first = lit "deop")
    (hmentions : message.Mentions ≠ [])
    (hcache : p.channelGuild message.ChannelID = some guildID)
    (hvs : getVoiceStateOfUser p message.Author.ID guildID = some voiceState)
    (htracked : mapGet channels voiceState.ChannelID = some r)
    (hauth : isOpLoop voiceState.ChannelID message.Author.ID channels = true) :
    ∃ out, messageCreate cfg p channels message = some out ∧
      mapGet out.channels voiceState.ChannelID
        = some { r with OPs := r.OPs.filter (fun v => decide (v ∉ message.Mentions.map User.ID)) } ∧
      (∀ k, k ≠ voiceState.ChannelID → mapGet out.channels k = mapGet channels k) ∧
      ∃ out2, messageCreate cfg p out.channels message = some out2 ∧
        out2.channels = out.channels := by
  obtain ⟨out, h1, -, g1, o1⟩ := deopBranch_spec hmentions hcache hvs htracked hauth
  refine ⟨out, ?_, g1, o1, ?_⟩
  · rw [messageCreate_deop hbot hcontent hpfx hsplit hlower]; exact h1
  · rw [messageCreate_deop hbot hcontent hpfx hsplit hlower]
    by_cases hauth2 : isOpLoop voiceState.ChannelID message.Author.ID out.channels = true
    · obtain ⟨out2, h2, m2, -, -⟩ := deopBranch_spec hmentions hcache hvs g1 hauth2
      have hfix := mapModify_fixed
        (f := fun r => { r with OPs := r.OPs.filter (fun v => decide (v ∉ message.Mentions.map User.ID)) })
        g1 (by simp [List.filter_filter])
      rw [hfix] at m2
      exact ⟨out2, h2, (Option.some.inj m2).symm⟩
    · have hlen : message.Mentions.length > 0 := List.length_pos.mpr hmentions
      refine ⟨⟨out.channels, []⟩, ?_, rfl⟩
      unfold deopBranch
      simp only [if_pos hlen, hcache, hvs, g1, hauth2, Bool.false_eq_true, if_false]

/-- An instance: the owner A of "c1", whose operators are D, C, E and C again, deops C
and B. -/
theorem deop_by_accepted_author_filters_OPs_example :
    ∃ out, messageCreate defaultConfig (platformOf [] [voiceStateOf "A" "c1"] "c2" 1000)
        [recordOf "c1" "A" "PV: room" ["D", "C", "E", "C"] true 900]
        (messageOf "A" "!deop @C @B" ["C", "B"]) = some out ∧
      mapGet out.channels (lit "c1") = some (recordOf "c1" "A" "PV: room" ["D", "E"] true 900).2 ∧
      (∀ k, k ≠ lit "c1" → mapGet out.channels k
        = mapGet [recordOf "c1" "A" "PV: room" ["D", "C", "E", "C"] true 900] k) ∧
      ∃ out2, messageCreate defaultConfig (platformOf [] [voiceStateOf "A" "c1"] "c2" 1000)
          out.channels (messageOf "A" "!deop @C @B" ["C", "B"]) = some out2 ∧
        out2.channels = out.channels :=
  deop_by_accepted_author_filters_OPs defaultConfig (platformOf [] [voiceStateOf "A" "c1"] "c2" 1000)
    [recordOf "c1" "A" "PV: room" ["D", "C", "E", "C"] true 900]
    (messageOf "A" "!deop @C @B" ["C", "B"])
    33 (lit "deop @C @B") (lit "deop") (lit "g") [lit "@C", lit "@B"] (voiceStateOf "A" "c1")
    (recordOf "c1" "A" "PV: room" ["D", "C", "E", "C"] true 900).2
    (by decide) (by decide) (by decide) (by decide) (by decide) (by decide) (by decide)
    (by decide) (by decide) (by decide)

/-- C11. B is an operator of "c1" (owner A, `OPs` [B, C]) and sits in it. The authorization loop
of the deop branch compares the elements of `OPs` with the key of the channel, as in C1, and
rejects B: the message "!deop @C" of B issues no call and leaves the registry as it is, with
`OPs` still [B, C] and not the list without C. The same message from the owner A is accepted
and leaves `OPs` as [B]. -/
theorem C11_operator_deop_changes_nothing :
    lit "B" ∈ (recordOf "c1" "A" "PV: room" ["B", "C"] true 900).2.OPs
    ∧ isOpLoop (lit "c1") (lit "B") [recordOf "c1" "A" "PV: room" ["B", "C"] true 900] = false
    ∧ messageCreate defaultConfig
        (platformOf [] [voiceStateOf "A" "c1", voiceStateOf "B" "c1"] "c2" 1000)
        [recordOf "c1" "A" "PV: room" ["B", "C"] true 900] (messageOf "B" "!deop @C" ["C"])
      = some ⟨[recordOf "c1" "A" "PV: room" ["B", "C"] true 900], []⟩
    ∧ lit "C" ∈ (recordOf "c1" "A" "PV: room" ["B", "C"] true 900).2.OPs
    ∧ (messageCreate defaultConfig
        (platformOf [] [voiceStateOf "A" "c1", voiceStateOf "B" "c1"] "c2" 1000)
        [recordOf "c1" "A" "PV: room" ["B", "C"] true 900]
        (messageOf "A" "!deop @C" ["C"])).map (fun out => out.channels)
      = some [recordOf "c1" "A" "PV: room" ["B"] true 900] := by
  decide

/-- The mention loop of the op branch on a tracked channel: it does not panic, issues one
permission call per mention, and appends the IDs of the mentions, in order, to `OPs`. -/
theorem opMentions_spec (vc : GoString) :
    ∀ (ms : List User) (channels : Registry) (r : voiceChannel),
      mapGet channels vc = some r →
      ∃ out, opMentions vc ms channels = some out ∧
        mapGet out.channels vc = some { r with OPs := r.OPs ++ ms.map User.ID } ∧
        (∀ k', k' ≠ vc → mapGet out.channels k' = mapGet channels k') ∧
        out.calls = ms.map (fun u => Call.ChannelPermissionSet vc u.ID (lit "member") 40894464 0) := by
  intro ms
  induction ms with
  | nil => intro channels r h; exact ⟨⟨channels, []⟩, rfl, by simpa using h, fun _ _ => rfl, rfl⟩
  | cons u rest ih =>
    intro channels r hget
    obtain ⟨m1, h1, g1, o1⟩ := mapModify_of_mapGet (fun r => { r with OPs := r.OPs ++ [u.ID] }) vc
      channels r hget
    obtain ⟨out, h3, g3, o3, c3⟩ := ih m1 _ g1
    refine ⟨⟨out.channels, Call.ChannelPermissionSet vc u.ID (lit "member") 40894464 0 :: out.calls⟩,
      ?_, ?_, ?_, ?_⟩
    · simp only [opMentions, h1, h3]
    · rw [g3]; simp
    · intro k' hk'
      rw [o3 k' hk', o1 k' hk']
    · simp [c3]

/-- The op branch on a tracked channel whose author the authorization loop accepts. -/
theorem opBranch_spec {p : Platform} {channels : Registry} {message : Message}
    {guildID : GoString} {voiceState : VoiceState} {r : voiceChannel}
    (hmentions : message.Mentions ≠ [])
    (hcache : p.channelGuild message.ChannelID = some guildID)
    (hvs : getVoiceStateOfUser p message.Author.ID guildID = some voiceState)
    (htracked : mapGet channels voiceState.ChannelID = some r)
    (hauth : isOpLoop voiceState.ChannelID message.Author.ID channels = true) :
    ∃ out, opBranch p channels message = some out ∧
      mapGet out.channels voiceState.ChannelID
        = some { r with OPs := r.OPs ++ message.Mentions.map User.ID } ∧
      (∀ k, k ≠ voiceState.ChannelID → mapGet out.channels k = mapGet channels k) ∧
      out.calls = message.Mentions.map (fun u =>
          Call.ChannelPermissionSet voiceState.ChannelID u.ID (lit "member") 40894464 0)
        ++ [Call.ChannelMessageSend message.ChannelID
          (lit "They are now OP\x27d in your channel, \x60" ++ r.Name ++ lit "\x60")] := by
  obtain ⟨out1, h1, g1, o1, c1⟩ := opMentions_spec voiceState.ChannelID message.Mentions
    channels r htracked
  have hlen : message.Mentions.length > 0 := List.length_pos.mpr hmentions
  refine ⟨⟨out1.channels, out1.calls ++ [Call.ChannelMessageSend message.ChannelID
      (lit "They are now OP\x27d in your channel, \x60" ++ r.Name ++ lit "\x60")]⟩, ?_, g1, o1, ?_⟩
  · unfold opBranch
    simp only [if_pos hlen, hcache, hvs, hauth, if_true, h1, g1]
  · simp only [c1]

/-- C12, counterexample. The owner A of "c1", present in it, sends "!op @B" twice: after the
first message `OPs` is [B], after the second it is [B, B], a list with a duplicate. -/
theorem C12_double_op_duplicates :
    (run defaultConfig [recordOf "c1" "A" "PV: room" [] true 900]
        [Event.message (platformOf [] [voiceStateOf "A" "c1"] "c2" 1000)
          (messageOf "A" "!op @B" ["B"])]).map (fun out => out.channels)
      = some [recordOf "c1" "A" "PV: room" ["B"] true 900]
    ∧ (run defaultConfig [recordOf "c1" "A" "PV: room" [] true 900]
        [Event.message (platformOf [] [voiceStateOf "A" "c1"] "c2" 1000)
          (messageOf "A" "!op @B" ["B"]),
         Event.message (platformOf [] [voiceStateOf "A" "c1"] "c2" 1001)
          (messageOf "A" "!op @B" ["B"])]).map (fun out => out.channels)
      = some [recordOf "c1" "A" "PV: room" ["B", "B"] true 900]
    ∧ ¬ (recordOf "c1" "A" "PV: room" ["B", "B"] true 900).2.OPs.Nodup := by
  decide

/-- C12, amended. An op command (first byte the command prefix, first word lowering to "op")
with at least one mention, from a user other than the bot whose voice state names a tracked
channel with record `r` and whom the authorization loop accepts: the handler does not panic,
and afterwards `OPs` is the old list followed by the IDs of the mentions in their order,
whether or not they were in it; every other key keeps its record. The same message is
accepted again, and after the second handling the IDs of the mentions stand twice at the end
of `OPs`. -/
theorem C12_op_appends_mentions (cfg : Config) (p : Platform) (channels : Registry)
    (message : Message) (b : Nat) (content1 first guildID : GoString) (args : List GoString)
    (voiceState : VoiceState) (r : voiceChannel)
    (hbot : message.Author.ID ≠ cfg.uID) (hcontent : message.Content = b :: content1)
    (hpfx : stringOfByte b = cfg.commandPrefix)
    (hsplit : explodeCommand content1 = first :: args)
    (hlower : cfg.ToLower first = lit "op")
    (hmentions : message.Mentions ≠ [])
    (hcache : p.channelGuild message.ChannelID = some guildID)
    (hvs : getVoiceStateOfUser p message.Author.ID guildID = some voiceState)
    (htracked : mapGet channels voiceState.ChannelID = some r)
    (hauth : isOpLoop voiceState.ChannelID message.Author.ID channels = true) :
    ∃ out, messageCreate cfg p channels message = some out ∧
      mapGet out.channels voiceState.ChannelID
        = some { r with OPs := r.OPs ++ message.Mentions.map User.ID } ∧
      (∀ k, k ≠ voiceState.ChannelID → mapGet out.channels k = mapGet channels k) ∧
      ∃ out2, messageCreate cfg p out.channels message = some out2 ∧
        mapGet out2.channels voiceState.ChannelID
          = some { r with OPs :=
              r.OPs ++ message.Mentions.map User.ID ++ message.Mentions.map User.ID } := by
  obtain ⟨out, h1, g1, o1, -⟩ := opBranch_spec hmentions hcache hvs htracked hauth
  have hauth2 : isOpLoop voiceState.ChannelID message.Author.ID out.channels = true := by
    rw [isOpLoop_iff g1]
    rcases (isOpLoop_iff htracked).mp hauth with h | h
    · exact Or.inl h
    · exact Or.inr (List.mem_append_left _ h)
  obtain ⟨out2, h2, g2, -, -⟩ := opBranch_spec hmentions hcache hvs g1 hauth2
  refine ⟨out, ?_, g1, o1, out2, ?_, g2⟩
  · rw [messageCreate_op hbot hcontent hpfx hsplit hlower]; exact h1
  · rw [messageCreate_op hbot hcontent hpfx hsplit hlower]; exact h2

/-- Witness of C12: the owner A of "c1", whose operator is D, ops B and D. -/
theorem C12_op_appends_mentions_witness :
    ∃ out, messageCreate defaultConfig (platformOf [] [voiceStateOf "A" "c1"] "c2" 1000)
        [recordOf "c1" "A" "PV: room" ["D"] true 900]
        (messageOf "A" "!op @B @D" ["B", "D"]) = some out ∧
      mapGet out.channels (lit "c1")
        = some (recordOf "c1" "A" "PV: room" ["D", "B", "D"] true 900).2 ∧
      (∀ k, k ≠ lit "c1" → mapGet out.channels k
        = mapGet [recordOf "c1" "A" "PV: room" ["D"] true 900] k) ∧
      ∃ out2, messageCreate defaultConfig (platformOf [] [voiceStateOf "A" "c1"] "c2" 1000)
          out.channels (messageOf "A" "!op @B @D" ["B", "D"]) = some out2 ∧
        mapGet out2.channels (lit "c1")
          = some (recordOf "c1" "A" "PV: room" ["D", "B", "D", "B", "D"] true 900).2 :=
  C12_op_appends_mentions defaultConfig (platformOf [] [voiceStateOf "A" "c1"] "c2" 1000)
    [recordOf "c1" "A" "PV: room" ["D"] true 900]
    (messageOf "A" "!op @B @D" ["B", "D"])
    33 (lit "op @B @D") (lit "op") (lit "g") [lit "@B", lit "@D"] (voiceStateOf "A" "c1")
    (recordOf "c1" "A" "PV: room" ["D"] true 900).2
    (by decide) (by decide) (by decide) (by decide) (by decide) (by decide) (by decide)
    (by decide) (by decide) (by decide)

theorem mapGet_eq_none_of_not_mem {m : Registry} {k : GoString} (h : k ∉ keys m) :
    mapGet m k = none := by
  induction m with
  | nil => rfl
  | cons e rest ih =>
    obtain ⟨k', r⟩ := e
    have hne : k' ≠ k := fun heq => h (by simp [keys, heq])
    have hrest : k ∉ keys rest := fun hm => h (by
      simp only [keys, List.map_cons, List.mem_cons]; exact Or.inr hm)
    rw [mapGet, if_neg hne]
    exact ih hrest

theorem mem_keys_of_mapGet {m : Registry} {k : GoString} {r : voiceChannel}
    (h : mapGet m k = some r) : k ∈ keys m :=
  List.mem_map_of_mem Prod.fst (mem_of_mapGet h)

theorem inviteLoop_untracked (message : Message) {vc : GoString} :
    ∀ {m : Registry}, mapGet m vc = none → inviteLoop message vc m = [] := by
  intro m
  induction m with
  | nil => intro _; rfl
  | cons e rest ih =>
    intro h
    obtain ⟨k, v⟩ := e
    rw [mapGet] at h
    by_cases hk : k = vc
    · rw [if_pos hk] at h; cases h
    · rw [if_neg hk] at h
      rw [inviteLoop, if_neg hk]
      exact ih h

/-- The range of the invite branch on a map that holds the voice channel of the author: one
permission call per mention on that channel, then the reply. -/
theorem inviteLoop_spec (message : Message) {vc : GoString} {r : voiceChannel} :
    ∀ {m : Registry}, (keys m).Nodup → mapGet m vc = some r →
      inviteLoop message vc m
        = message.Mentions.map
            (fun thisUser => Call.ChannelPermissionSet r.ChannelID thisUser.ID (lit "member") 36700160 0)
          ++ [Call.ChannelMessageSend message.ChannelID
            (lit "They can now join your channel, \x60" ++ r.Name ++ lit "\x60")] := by
  intro m
  induction m with
  | nil => intro _ h; simp [mapGet] at h
  | cons e rest ih =>
    intro hn h
    obtain ⟨k, v⟩ := e
    simp only [keys, List.map_cons, List.nodup_cons] at hn
    rw [mapGet] at h
    by_cases hk : k = vc
    · rw [if_pos hk] at h
      cases h
      have hnone : mapGet rest vc = none := mapGet_eq_none_of_not_mem (hk ▸ hn.1)
      rw [inviteLoop, if_pos hk, inviteLoop_untracked message hnone]
    · rw [if_neg hk] at h
      rw [inviteLoop, if_neg hk]
      exact ih hn.2 h

/-- C13, counterexample. X is present in "c1", which A owns and where nobody is an operator. X
sends "!invite @Y": the handler sets the permission of Y on "c1" and replies. -/
theorem C13_any_occupant_can_invite :
    (recordOf "c1" "A" "PV: room" [] true 900).2.OwnerID ≠ lit "X"
    ∧ lit "X" ∉ (recordOf "c1" "A" "PV: room" [] true 900).2.OPs
    ∧ isOpLoop (lit "c1") (lit "X") [recordOf "c1" "A" "PV: room" [] true 900] = false
    ∧ messageCreate defaultConfig
        (platformOf [] [voiceStateOf "A" "c1", voiceStateOf "X" "c1"] "c2" 1000)
        [recordOf "c1" "A" "PV: room" [] true 900] (messageOf "X" "!invite @Y" ["Y"])
      = some ⟨[recordOf "c1" "A" "PV: room" [] true 900],
          [Call.ChannelPermissionSet (lit "c1") (lit "Y") (lit "member") 36700160 0,
           Call.ChannelMessageSend (lit "t") (lit "They can now join your channel, \x60PV: room\x60")]⟩
    ∧ messageCreate defaultConfig
        (platformOf [] [voiceStateOf "A" "c1", voiceStateOf "X" "c1"] "c2" 1000)
        [recordOf "c1" "A" "PV: room" [] true 900] (messageOf "X" "!allow @Y" ["Y"])
      = some ⟨[recordOf "c1" "A" "PV: room" [] true 900],
          [Call.ChannelPermissionSet (lit "c1") (lit "Y") (lit "member") 36700160 0,
           Call.ChannelMessageSend (lit "t") (lit "They can now join your channel, \x60PV: room\x60")]⟩ := by
  decide

/-- C13, amended. An invite or allow command with at least one mention, from any user other
than the bot whose voice state names a tracked channel with record `r` (owner, operator or
neither: the branch makes no authorization test): the registry is unchanged, and the calls are
one permission call (allow 36700160) per mention on the channel of `r`, then one reply. -/
theorem C13_invite_needs_presence_only (cfg : Config) (p : Platform) (channels : Registry)
    (message : Message) (b : Nat) (content1 first guildID : GoString) (args : List GoString)
    (voiceState : VoiceState) (r : voiceChannel)
    (hbot : message.Author.ID ≠ cfg.uID) (hcontent : message.Content = b :: content1)
    (hpfx : stringOfByte b = cfg.commandPrefix)
    (hsplit : explodeCommand content1 = first :: args)
    (hlower : cfg.ToLower first = lit "invite" ∨ cfg.ToLower first = lit "allow")
    (hmentions : message.Mentions ≠ [])
    (hcache : p.channelGuild message.ChannelID = some guildID)
    (hvs : getVoiceStateOfUser p message.Author.ID guildID = some voiceState)
    (hkeys : (keys channels).Nodup)
    (htracked : mapGet channels voiceState.ChannelID = some r) :
    messageCreate cfg p channels message
      = some ⟨channels,
          message.Mentions.map
              (fun thisUser => Call.ChannelPermissionSet r.ChannelID thisUser.ID (lit "member") 36700160 0)
            ++ [Call.ChannelMessageSend message.ChannelID
              (lit "They can now join your channel, \x60" ++ r.Name ++ lit "\x60")]⟩ := by
  have hlen : message.Mentions.length > 0 := List.length_pos.mpr hmentions
  rw [messageCreate_invite hbot hcontent hpfx hsplit hlower]
  unfold inviteBranch
  simp only [if_pos hlen, hcache, hvs, inviteLoop_spec message hkeys htracked]

/-- Witness of C13: X, neither owner nor operator of "c1", invites Y and Z. -/
theorem C13_invite_needs_presence_only_witness :
    messageCreate defaultConfig
        (platformOf [] [voiceStateOf "A" "c1", voiceStateOf "X" "c1"] "c2" 1000)
        [recordOf "c1" "A" "PV: room" ["D"] true 900] (messageOf "X" "!invite @Y @Z" ["Y", "Z"])
      = some ⟨[recordOf "c1" "A" "PV: room" ["D"] true 900],
          [Call.ChannelPermissionSet (lit "c1") (lit "Y") (lit "member") 36700160 0,
           Call.ChannelPermissionSet (lit "c1") (lit "Z") (lit "member") 36700160 0,
           Call.ChannelMessageSend (lit "t") (lit "They can now join your channel, \x60PV: room\x60")]⟩ :=
  C13_invite_needs_presence_only defaultConfig
    (platformOf [] [voiceStateOf "A" "c1", voiceStateOf "X" "c1"] "c2" 1000)
    [recordOf "c1" "A" "PV: room" ["D"] true 900] (messageOf "X" "!invite @Y @Z" ["Y", "Z"])
    33 (lit "invite @Y @Z") (lit "invite") (lit "g") [lit "@Y", lit "@Z"] (voiceStateOf "X" "c1")
    (recordOf "c1" "A" "PV: room" ["D"] true 900).2
    (by decide) (by decide) (by decide) (by decide) (by decide) (by decide) (by decide)
    (by decide) (by decide) (by decide)

/-- C14. The guild holds the empty voice channel "c7" named "PV: old", which is in no registry,
and X joins the ordinary channel "v1". With the empty registry the range over the map has no
round, so no delete call is issued for "c7", whatever the visiting order; with one unrelated
record in the registry the delete call is issued. -/
theorem C14_orphan_survives_empty_registry (order : Nat → Registry → Registry)
    (horder : ∀ i m, (order i m).Perm m) :
    VoiceStateUpdate defaultConfig
        (platformOf [⟨lit "c7", lit "PV: old", lit "voice"⟩, ⟨lit "v1", lit "General", lit "voice"⟩]
          [voiceStateOf "X" "v1"] "c9" 1000)
        order [] { GuildID := lit "g", ChannelID := lit "v1", UserID := lit "X" }
      = some ⟨[], []⟩
    ∧ VoiceStateUpdate defaultConfig
        (platformOf [⟨lit "c7", lit "PV: old", lit "voice"⟩, ⟨lit "v1", lit "General", lit "voice"⟩]
          [voiceStateOf "X" "v1"] "c9" 1000)
        order [recordOf "c2" "B" "PV: b" [] true 900]
        { GuildID := lit "g", ChannelID := lit "v1", UserID := lit "X" }
      = some ⟨[recordOf "c2" "B" "PV: b" [] true 900], [Call.ChannelDelete (lit "c7")]⟩ := by
  have hg : getVoiceChannelsAndStates
      (platformOf [⟨lit "c7", lit "PV: old", lit "voice"⟩, ⟨lit "v1", lit "General", lit "voice"⟩]
          [voiceStateOf "X" "v1"] "c9" 1000) (lit "g")
      = some ([⟨lit "c7", lit "PV: old", lit "voice"⟩, ⟨lit "v1", lit "General", lit "voice"⟩],
          [voiceStateOf "X" "v1"]) := by decide
  have h1 : ¬ (lit "PV: old").length ≤ defaultConfig.voicePrefix.length := by decide
  have h2 : ¬ (lit "PV: old").take defaultConfig.voicePrefix.length ≠ defaultConfig.voicePrefix := by
    decide
  have h3 : getUserCountInVoiceChannel (lit "c7") [voiceStateOf "X" "v1"] = 0 := by decide
  have h4 : ¬ (lit "General").length ≤ defaultConfig.voicePrefix.length := by decide
  have h5 : (lit "General").take defaultConfig.voicePrefix.length ≠ defaultConfig.voicePrefix := by
    decide
  have hnil : order 0 [] = [] := List.Perm.eq_nil (horder 0 [])
  have hone : order 0 [recordOf "c2" "B" "PV: b" [] true 900]
      = [recordOf "c2" "B" "PV: b" [] true 900] := List.perm_singleton.mp (horder 0 _)
  have hm0 : markJoined (lit "v1") ([] : Registry) = [] := rfl
  have hm1 : markJoined (lit "v1") [recordOf "c2" "B" "PV: b" [] true 900]
      = [recordOf "c2" "B" "PV: b" [] true 900] := by decide
  have hloop0 : emptyChannelLoop defaultConfig.channelDeleteDelay 1000 (lit "c7") [] []
      = ⟨[], []⟩ := rfl
  have hloop1 : emptyChannelLoop defaultConfig.channelDeleteDelay 1000 (lit "c7")
      [recordOf "c2" "B" "PV: b" [] true 900] [recordOf "c2" "B" "PV: b" [] true 900]
      = ⟨[recordOf "c2" "B" "PV: b" [] true 900], [Call.ChannelDelete (lit "c7")]⟩ := by decide
  constructor
  · simp only [VoiceStateUpdate, hg, hm0]
    show some (scanChannels defaultConfig 1000 order [voiceStateOf "X" "v1"] 0 _ _) = _
    simp only [scanChannels, h1, h2, h3, h4, if_pos h5, if_false, if_true, hnil, hloop0,
      List.append_nil]
  · simp only [VoiceStateUpdate, hg, hm1]
    show some (scanChannels defaultConfig 1000 order [voiceStateOf "X" "v1"] 0 _ _) = _
    simp only [scanChannels, h1, h2, h3, h4, if_pos h5, if_false, if_true, hone, hloop1,
      List.append_nil]

/-- Witness of C14, with the range producing the entries in list order. -/
theorem C14_orphan_survives_empty_registry_witness :
    VoiceStateUpdate defaultConfig
        (platformOf [⟨lit "c7", lit "PV: old", lit "voice"⟩, ⟨lit "v1", lit "General", lit "voice"⟩]
          [voiceStateOf "X" "v1"] "c9" 1000)
        (fun _ m => m) [] { GuildID := lit "g", ChannelID := lit "v1", UserID := lit "X" }
      = some ⟨[], []⟩ :=
  (C14_orphan_survives_empty_registry (fun _ m => m) (fun _ m => List.Perm.refl m)).1

theorem stringInSlice_iff (a : GoString) (l : List GoString) : stringInSlice a l = true ↔ a ∈ l := by
  induction l with
  | nil => simp [stringInSlice]
  | cons b rest ih =>
    rw [stringInSlice]
    by_cases h : b = a
    · simp [h]
    · rw [if_neg h, ih]
      simp [Ne.symm h]

/-- With a command prefix of one ASCII character, a message that does not begin with the prefix
fails the test on its first byte. -/
theorem stringOfByte_ne_of_not_prefix {c b : Nat} {rest : GoString} (hc : c < 128)
    (h : ¬ [c] <+: b :: rest) : stringOfByte b ≠ [c] := by
  intro heq
  apply h
  unfold stringOfByte at heq
  split at heq
  · cases heq
    exact ⟨rest, rfl⟩
  · cases heq

/-- C15. The dispatcher returns without a panic, with the registry unchanged and no call, for
every message (1) of the bot itself, (2) with empty content, (3) that does not begin with the
command prefix, the prefix being one ASCII character, (4) whose first space-delimited word
after the first byte does not lower to one of new, delete, invite, allow, op, deop, kick,
leave, and (5) that consists of the prefix alone, the lowered empty string being empty. -/
theorem C15_dispatcher_ignores (cfg : Config) (p : Platform) (channels : Registry)
    (message : Message) :
    (message.Author.ID = cfg.uID → messageCreate cfg p channels message = some ⟨channels, []⟩)
    ∧ (message.Content = [] → messageCreate cfg p channels message = some ⟨channels, []⟩)
    ∧ (∀ c, cfg.commandPrefix = [c] → c < 128 → ¬ cfg.commandPrefix <+: message.Content →
        messageCreate cfg p channels message = some ⟨channels, []⟩)
    ∧ (∀ b rest first args, message.Content = b :: rest → explodeCommand rest = first :: args →
        cfg.ToLower first ∉ [lit "new", lit "delete", lit "invite", lit "allow", lit "op",
          lit "deop", lit "kick", lit "leave"] →
        messageCreate cfg p channels message = some ⟨channels, []⟩)
    ∧ (∀ c, cfg.commandPrefix = [c] → cfg.ToLower [] = [] → message.Content = cfg.commandPrefix →
        messageCreate cfg p channels message = some ⟨channels, []⟩) := by
  have hbotcase : message.Author.ID = cfg.uID →
      messageCreate cfg p channels message = some ⟨channels, []⟩ := by
    intro h
    unfold messageCreate
    rw [if_pos h]
  have htoken : ∀ b rest first args, message.Content = b :: rest →
      explodeCommand rest = first :: args →
      cfg.ToLower first ∉ [lit "new", lit "delete", lit "invite", lit "allow", lit "op",
        lit "deop", lit "kick", lit "leave"] →
      messageCreate cfg p channels message = some ⟨channels, []⟩ := by
    intro b rest first args hcontent hsplit hnot
    by_cases hbot : message.Author.ID = cfg.uID
    · exact hbotcase hbot
    · by_cases hpfx : stringOfByte b = cfg.commandPrefix
      · rw [messageCreate_dispatch hbot hcontent hpfx hsplit]
        have hin : stringInSlice (cfg.ToLower first) commands = false := by
          rw [Bool.eq_false_iff]
          intro hs
          rw [stringInSlice_iff] at hs
          apply hnot
          simp only [commands, List.mem_cons, List.mem_singleton, List.not_mem_nil, or_false] at hs
          simp only [List.mem_cons, List.mem_singleton, List.not_mem_nil, or_false]
          tauto
        rw [hin]
        rfl
      · unfold messageCreate
        rw [if_neg hbot, hcontent]
        simp only [ne_eq, hpfx, not_false_eq_true, if_true]
  refine ⟨hbotcase, ?_, ?_, htoken, ?_⟩
  · intro h
    unfold messageCreate
    rw [h]
    split <;> rfl
  · intro c hc hlt hnp
    by_cases hbot : message.Author.ID = cfg.uID
    · exact hbotcase hbot
    · unfold messageCreate
      rw [if_neg hbot]
      cases hcontent : message.Content with
      | nil => rfl
      | cons b rest =>
        rw [hc, hcontent] at hnp
        have hne := stringOfByte_ne_of_not_prefix hlt hnp
        simp only [hc, ne_eq, hne, not_false_eq_true, if_true]
  · intro c hc hlow hcontent
    rw [hc] at hcontent
    refine htoken c [] [] [] hcontent rfl ?_
    rw [hlow]
    decide

/-- Witness of C15: a message of the bot, an empty message, "hello" without the prefix,
"!hello world" and the prefix "!" alone are all ignored. -/
theorem C15_dispatcher_ignores_witness :
    messageCreate defaultConfig (platformOf [] [] "c2" 1000)
        [recordOf "c1" "A" "PV: room" [] true 900] (messageOf "bot" "!new x" [])
      = some ⟨[recordOf "c1" "A" "PV: room" [] true 900], []⟩
    ∧ messageCreate defaultConfig (platformOf [] [] "c2" 1000)
        [recordOf "c1" "A" "PV: room" [] true 900] (messageOf "B" "" [])
      = some ⟨[recordOf "c1" "A" "PV: room" [] true 900], []⟩
    ∧ messageCreate defaultConfig (platformOf [] [] "c2" 1000)
        [recordOf "c1" "A" "PV: room" [] true 900] (messageOf "B" "new x" [])
      = some ⟨[recordOf "c1" "A" "PV: room" [] true 900], []⟩
    ∧ messageCreate defaultConfig (platformOf [] [] "c2" 1000)
        [recordOf "c1" "A" "PV: room" [] true 900] (messageOf "B" "!hello world" [])
      = some ⟨[recordOf "c1" "A" "PV: room" [] true 900], []⟩
    ∧ messageCreate defaultConfig (platformOf [] [] "c2" 1000)
        [recordOf "c1" "A" "PV: room" [] true 900] (messageOf "B" "!" [])
      = some ⟨[recordOf "c1" "A" "PV: room" [] true 900], []⟩ :=
  ⟨(C15_dispatcher_ignores defaultConfig (platformOf [] [] "c2" 1000)
      [recordOf "c1" "A" "PV: room" [] true 900] (messageOf "bot" "!new x" [])).1 (by decide),
   (C15_dispatcher_ignores defaultConfig (platformOf [] [] "c2" 1000)
      [recordOf "c1" "A" "PV: room" [] true 900] (messageOf "B" "" [])).2.1 (by decide),
   (C15_dispatcher_ignores defaultConfig (platformOf [] [] "c2" 1000)
      [recordOf "c1" "A" "PV: room" [] true 900] (messageOf "B" "new x" [])).2.2.1 33
      (by decide) (by decide) (by decide),
   (C15_dispatcher_ignores defaultConfig (platformOf [] [] "c2" 1000)
      [recordOf "c1" "A" "PV: room" [] true 900] (messageOf "B" "!hello world" [])).2.2.2.1 33
      (lit "hello world") (lit "hello") [lit "world"] (by decide) (by decide) (by decide),
   (C15_dispatcher_ignores defaultConfig (platformOf [] [] "c2" 1000)
      [recordOf "c1" "A" "PV: room" [] true 900] (messageOf "B" "!" [])).2.2.2.2 33
      (by decide) (by decide) (by decide)⟩

theorem mapGet_mapDelete (m : Registry) (k0 k : GoString) :
    mapGet (mapDelete m k0) k = if k = k0 then none else mapGet m k := by
  induction m with
  | nil => simp [mapDelete, mapGet]
  | cons e rest ih =>
    obtain ⟨k', r⟩ := e
    unfold mapDelete at ih ⊢
    by_cases h0 : k' = k0
    · rw [List.filter_cons_of_neg (by simp [h0]), ih]
      by_cases hk : k = k0
      · simp [hk]
      · have : k' ≠ k := fun h => hk (h ▸ h0)
        simp [hk, mapGet, this]
    · rw [List.filter_cons_of_pos (by simp [h0]), mapGet, ih]
      by_cases hk' : k' = k
      · have : k ≠ k0 := fun h => h0 (hk'.trans h)
        simp [hk', this, mapGet]
      · simp [hk', mapGet]

theorem mapGet_markJoined (id : GoString) (m : Registry) (k : GoString) :
    mapGet (markJoined id m) k
      = if k = id then (mapGet m k).map (fun r => { r with Joined := true }) else mapGet m k := by
  induction m with
  | nil => simp [markJoined, mapGet]
  | cons e rest ih =>
    obtain ⟨k', r⟩ := e
    rw [markJoined]
    by_cases h0 : id = k'
    · rw [if_pos h0]
      by_cases hk : k = id
      · simp [mapGet, hk, h0]
      · have : k' ≠ k := fun h => hk (h ▸ h0.symm)
        simp [mapGet, hk, this]
    · rw [if_neg h0, mapGet, ih]
      by_cases hk' : k' = k
      · have : k ≠ id := fun h => h0 (h ▸ hk'.symm)
        simp [mapGet, hk', this]
      · simp [mapGet, hk']

theorem mem_keys_iff_mapGet (m : Registry) (k : GoString) :
    k ∈ keys m ↔ mapGet m k ≠ none := by
  constructor
  · intro hk hnone
    induction m with
    | nil => cases hk
    | cons e rest ih =>
      obtain ⟨k', r⟩ := e
      rw [mapGet] at hnone
      by_cases h : k' = k
      · rw [if_pos h] at hnone; cases hnone
      · rw [if_neg h] at hnone
        simp only [keys, List.map_cons, List.mem_cons] at hk
        rcases hk with hk | hk
        · exact h hk.symm
        · exact ih hk hnone
  · intro h
    by_contra hk
    exact h (mapGet_eq_none_of_not_mem hk)

/-- The range for one empty guild channel leaves the map or deletes the key of that channel, and
issues no call or one delete call for that channel. -/
theorem emptyChannelLoop_cases (delay now : Int) (id : GoString) :
    ∀ (visit channels : Registry),
      ((emptyChannelLoop delay now id visit channels).channels = channels ∨
        (emptyChannelLoop delay now id visit channels).channels = mapDelete channels id) ∧
      ((emptyChannelLoop delay now id visit channels).calls = [] ∨
        (emptyChannelLoop delay now id visit channels).calls = [Call.ChannelDelete id]) := by
  intro visit
  induction visit with
  | nil => intro channels; exact ⟨Or.inl rfl, Or.inl rfl⟩
  | cons e rest ih =>
    intro channels
    obtain ⟨k, r⟩ := e
    simp only [emptyChannelLoop]
    split
    · split
      · exact ⟨Or.inr rfl, Or.inr rfl⟩
      · exact ih channels
    · exact ⟨Or.inl rfl, Or.inr rfl⟩

/-- Every call of the scan is a delete call for a guild channel that carries the prefix and is
empty. -/
theorem scanChannels_calls (cfg : Config) (now : Int) (order : Nat → Registry → Registry)
    (vs : List VoiceState) : ∀ (cs : List Channel) (i : Nat) (channels : Registry),
      ∀ call ∈ (scanChannels cfg now order vs i cs channels).calls,
        ∃ c ∈ cs, call = Call.ChannelDelete c.ID ∧ emptyPrivate cfg vs c := by
  intro cs
  induction cs with
  | nil => intro i channels call h; simp [scanChannels] at h
  | cons c rest ih =>
    intro i channels call h
    have lift : ∀ {m : Registry},
        call ∈ (scanChannels cfg now order vs (i + 1) rest m).calls →
        ∃ c' ∈ c :: rest, call = Call.ChannelDelete c'.ID ∧ emptyPrivate cfg vs c' := by
      intro m hm
      obtain ⟨c', hc', h'⟩ := ih _ _ call hm
      exact ⟨c', List.mem_cons_of_mem _ hc', h'⟩
    simp only [scanChannels] at h
    split at h
    · exact lift h
    · rename_i hlen
      split at h
      · exact lift h
      · rename_i hpre
        split at h
        · rename_i hcount
          simp only [List.mem_append] at h
          rcases h with h | h
          · have hc := (emptyChannelLoop_cases cfg.channelDeleteDelay now c.ID
              (order i channels) channels).2
            rcases hc with hc | hc
            · rw [hc] at h; cases h
            · rw [hc] at h
              simp only [List.mem_singleton] at h
              exact ⟨c, List.mem_cons_self _ _, h,
                Nat.lt_of_not_le hlen, not_not.mp hpre, hcount⟩
          · exact lift h
        · exact lift h

/-- The scan keeps under every key the record it had, or removes the key; it removes only keys
that are the ID of a guild channel that carries the prefix and is empty. -/
theorem scanChannels_get (cfg : Config) (now : Int) (order : Nat → Registry → Registry)
    (vs : List VoiceState) : ∀ (cs : List Channel) (i : Nat) (channels : Registry) (k : GoString),
      mapGet (scanChannels cfg now order vs i cs channels).channels k = mapGet channels k ∨
      (mapGet (scanChannels cfg now order vs i cs channels).channels k = none ∧
        ∃ c ∈ cs, c.ID = k ∧ emptyPrivate cfg vs c) := by
  intro cs
  induction cs with
  | nil => intro i channels k; exact Or.inl rfl
  | cons c rest ih =>
    intro i channels k
    have lift : ∀ (m : Registry), (mapGet m k = mapGet channels k ∨
          (mapGet m k = none ∧ ∃ c' ∈ c :: rest, c'.ID = k ∧ emptyPrivate cfg vs c')) →
        mapGet (scanChannels cfg now order vs (i + 1) rest m).channels k = mapGet channels k ∨
        (mapGet (scanChannels cfg now order vs (i + 1) rest m).channels k = none ∧
          ∃ c' ∈ c :: rest, c'.ID = k ∧ emptyPrivate cfg vs c') := by
      intro m hm
      rcases ih (i + 1) m k with h | ⟨h, c', hc', h'⟩
      · rcases hm with hm | ⟨hm, hex⟩
        · exact Or.inl (h.trans hm)
        · exact Or.inr ⟨h.trans hm, hex⟩
      · exact Or.inr ⟨h, c', List.mem_cons_of_mem _ hc', h'⟩
    simp only [scanChannels]
    split
    · exact lift channels (Or.inl rfl)
    · rename_i hlen
      split
      · exact lift channels (Or.inl rfl)
      · rename_i hpre
        split
        · rename_i hcount
          apply lift
          rcases (emptyChannelLoop_cases cfg.channelDeleteDelay now c.ID
              (order i channels) channels).1 with hc | hc
          · rw [hc]; exact Or.inl rfl
          · rw [hc, mapGet_mapDelete]
            by_cases hk : k = c.ID
            · rw [if_pos hk]
              exact Or.inr ⟨rfl, c, List.mem_cons_self _ _, hk.symm,
                Nat.lt_of_not_le hlen, not_not.mp hpre, hcount⟩
            · rw [if_neg hk]; exact Or.inl rfl
        · exact lift channels (Or.inl rfl)

theorem mapGet_mapSet (m : Registry) (id : GoString) (r : voiceChannel) (k : GoString) :
    mapGet (mapSet m id r) k = if id = k then some r else mapGet m k := by
  unfold mapSet
  rw [mapGet]
  by_cases h : id = k
  · rw [if_pos h, if_pos h]
  · rw [if_neg h, if_neg h, mapGet_mapDelete, if_neg (fun hk => h hk.symm)]

/-- The new command leaves the registry as it is or stores, under the ID the platform gave, a
record of the author without operators that is not joined. -/
theorem makeNewPrivateVoice_created {cfg : Config} {p : Platform} {channels : Registry}
    {title : GoString} {message : Message} {out : Out}
    (h : makeNewPrivateVoice cfg p channels title message = some out) :
    out.channels = channels ∨
      ∃ g n id r, p.GuildChannelCreate g n = some id ∧ out.channels = mapSet channels id r ∧
        r.OwnerID = message.Author.ID ∧ r.OPs = [] ∧ r.Joined = false := by
  unfold makeNewPrivateVoice at h
  split at h
  · split at h
    · cases h
    · split at h
      · cases h
      · split at h
        · unfold createChannel at h
          split at h
          · cases h
          · rename_i newID hnew
            cases h
            exact Or.inr ⟨_, _, _, _, hnew, rfl, rfl, rfl, rfl⟩
        · cases h; left; rfl
  · cases h; left; rfl

/-- The op branch returns the registry as it is unless the author is accepted on a tracked
channel. -/
theorem opBranch_cases {p : Platform} {channels : Registry} {message : Message} {out : Out}
    (h : opBranch p channels message = some out) :
    out.channels = channels ∨
      ∃ guildID voiceState r, message.Mentions ≠ [] ∧
        p.channelGuild message.ChannelID = some guildID ∧
        getVoiceStateOfUser p message.Author.ID guildID = some voiceState ∧
        mapGet channels voiceState.ChannelID = some r ∧
        isOpLoop voiceState.ChannelID message.Author.ID channels = true := by
  unfold opBranch at h
  split at h
  · rename_i hlen
    split at h
    · cases h
    · rename_i guildID hcache
      split at h
      · cases h
      · rename_i voiceState hvs
        split at h
        · rename_i hauth
          cases hget : mapGet channels voiceState.ChannelID with
          | none => rw [isOpLoop_untracked hget] at hauth; cases hauth
          | some r =>
            exact Or.inr ⟨guildID, voiceState, r, List.length_pos.mp hlen, hcache, hvs, hget, hauth⟩
        · cases h; left; rfl
  · cases h; left; rfl

theorem deopBranch_cases {p : Platform} {channels : Registry} {message : Message} {out : Out}
    (h : deopBranch p channels message = some out) :
    out.channels = channels ∨
      ∃ guildID voiceState r, message.Mentions ≠ [] ∧
        p.channelGuild message.ChannelID = some guildID ∧
        getVoiceStateOfUser p message.Author.ID guildID = some voiceState ∧
        mapGet channels voiceState.ChannelID = some r ∧
        isOpLoop voiceState.ChannelID message.Author.ID channels = true := by
  unfold deopBranch at h
  split at h
  · rename_i hlen
    split at h
    · cases h
    · rename_i guildID hcache
      split at h
      · cases h
      · rename_i voiceState hvs
        split at h
        · cases h
        · rename_i r hget
          simp only at h
          split at h
          · rename_i hauth
            exact Or.inr ⟨guildID, voiceState, r, List.length_pos.mp hlen, hcache, hvs, hget, hauth⟩
          · cases h; left; rfl
  · cases h; left; rfl

theorem kickBranch_cases {p : Platform} {channels : Registry} {message : Message} {out : Out}
    (h : kickBranch p channels message = some out) :
    out.channels = channels ∨
      ∃ guildID voiceState r, message.Mentions ≠ [] ∧
        p.channelGuild message.ChannelID = some guildID ∧
        getVoiceStateOfUser p message.Author.ID guildID = some voiceState ∧
        mapGet channels voiceState.ChannelID = some r ∧
        isOpLoop voiceState.ChannelID message.Author.ID channels = true := by
  unfold kickBranch at h
  split at h
  · rename_i hlen
    split at h
    · cases h
    · rename_i guildID hcache
      split at h
      · cases h
      · rename_i voiceState hvs
        split at h
        · rename_i hauth
          cases hget : mapGet channels voiceState.ChannelID with
          | none => rw [isOpLoop_untracked hget] at hauth; cases hauth
          | some r =>
            exact Or.inr ⟨guildID, voiceState, r, List.length_pos.mp hlen, hcache, hvs, hget, hauth⟩
        · cases h; left; rfl
  · cases h; left; rfl

/-- The kick branch on a tracked channel whose author the authorization loop accepts. -/
theorem kickBranch_spec {p : Platform} {channels : Registry} {message : Message}
    {guildID : GoString} {voiceState : VoiceState} {r : voiceChannel}
    (hmentions : message.Mentions ≠ [])
    (hcache : p.channelGuild message.ChannelID = some guildID)
    (hvs : getVoiceStateOfUser p message.Author.ID guildID = some voiceState)
    (htracked : mapGet channels voiceState.ChannelID = some r)
    (hauth : isOpLoop voiceState.ChannelID message.Author.ID channels = true) :
    ∃ out, kickBranch p channels message = some out ∧
      mapGet out.channels voiceState.ChannelID
        = some { r with OPs := r.OPs.filter (fun v => decide (v ∉ message.Mentions.map User.ID)) } ∧
      (∀ k, k ≠ voiceState.ChannelID → mapGet out.channels k = mapGet channels k) := by
  obtain ⟨out1, h1, g1, o1, -⟩ := kickMentions_spec message.Mentions voiceState.ChannelID
    message.Mentions channels r (fun _ h => h) htracked
  rw [if_neg hmentions] at g1
  have hlen : message.Mentions.length > 0 := List.length_pos.mpr hmentions
  refine ⟨⟨out1.channels, out1.calls ++ [Call.ChannelMessageSend message.ChannelID
      (lit "They can no longer join/speak in your channel, \x60" ++ r.Name ++ lit "\x60")]⟩,
    ?_, g1, o1⟩
  unfold kickBranch
  simp only [if_pos hlen, hcache, hvs, hauth, if_true, h1, g1]


/-- What a chat command does to the records. A record found under a key afterwards was under
that key before, with the same fields except `OPs`, and every element of its `OPs` was in it
before or is a mention of an op command whose author sits in that channel; or it is the
record just created under the ID the platform gave. -/
theorem messageCreate_records {cfg : Config} {p : Platform} {channels : Registry}
    {message : Message} {out : Out} (h : messageCreate cfg p channels message = some out)
    (k : GoString) (r' : voiceChannel) (hk : mapGet out.channels k = some r') :
    (∃ r, mapGet channels k = some r ∧ r' = { r with OPs := r'.OPs } ∧
      ∀ x ∈ r'.OPs, x ∈ r.OPs ∨
        (baseCommandOf cfg message = some (lit "op") ∧ authorVoiceChannel p message = some k ∧
          x ∈ message.Mentions.map User.ID))
    ∨ (∃ g n, p.GuildChannelCreate g n = some k ∧ r'.OwnerID = message.Author.ID ∧
        r'.OPs = [] ∧ r'.Joined = false) := by
  have same : out.channels = channels →
      ∃ r, mapGet channels k = some r ∧ r' = { r with OPs := r'.OPs } ∧
        ∀ x ∈ r'.OPs, x ∈ r.OPs ∨
          (baseCommandOf cfg message = some (lit "op") ∧ authorVoiceChannel p message = some k ∧
            x ∈ message.Mentions.map User.ID) := by
    intro heq
    rw [heq] at hk
    exact ⟨r', hk, rfl, fun x hx => Or.inl hx⟩
  have shrunk : ∀ {vc : GoString} {r : voiceChannel} {ops : List GoString},
      mapGet channels vc = some r →
      mapGet out.channels vc = some { r with OPs := ops } →
      (∀ k', k' ≠ vc → mapGet out.channels k' = mapGet channels k') →
      (∀ x ∈ ops, x ∈ r.OPs ∨
        (baseCommandOf cfg message = some (lit "op") ∧ authorVoiceChannel p message = some vc ∧
          x ∈ message.Mentions.map User.ID)) →
      ∃ r, mapGet channels k = some r ∧ r' = { r with OPs := r'.OPs } ∧
        ∀ x ∈ r'.OPs, x ∈ r.OPs ∨
          (baseCommandOf cfg message = some (lit "op") ∧ authorVoiceChannel p message = some k ∧
            x ∈ message.Mentions.map User.ID) := by
    intro vc r ops hget hnew hothers hops
    by_cases hkv : k = vc
    · subst hkv
      rw [hnew] at hk
      cases hk
      exact ⟨r, hget, rfl, hops⟩
    · rw [hothers k hkv] at hk
      exact ⟨r', hk, rfl, fun x hx => Or.inl hx⟩
  by_cases hbot : message.Author.ID = cfg.uID
  · unfold messageCreate at h
    rw [if_pos hbot] at h
    cases h
    exact Or.inl (same rfl)
  cases hcontent : message.Content with
  | nil =>
    unfold messageCreate at h
    rw [if_neg hbot, hcontent] at h
    cases h
    exact Or.inl (same rfl)
  | cons c0 content1 =>
    by_cases hpfx : stringOfByte c0 = cfg.commandPrefix
    · cases hsplit : explodeCommand content1 with
      | nil => exact absurd hsplit (splitSpace_ne_nil content1)
      | cons first args =>
        have hbase : baseCommandOf cfg message = some (cfg.ToLower first) := by
          unfold baseCommandOf
          rw [if_neg hbot, hcontent]
          simp only [hpfx, ne_eq, not_true_eq_false, if_false, hsplit]
        rw [messageCreate_dispatch hbot hcontent hpfx hsplit] at h
        split at h
        · split at h
          · rcases makeNewPrivateVoice_created h with heq | ⟨g, n, id, r, hnew, heq, ho, hops, hj⟩
            · exact Or.inl (same heq)
            · rw [heq, mapGet_mapSet] at hk
              by_cases hid : id = k
              · rw [if_pos hid] at hk
                cases hk
                exact Or.inr ⟨g, n, hid ▸ hnew, ho, hops, hj⟩
              · rw [if_neg hid] at hk
                exact Or.inl ⟨r', hk, rfl, fun x hx => Or.inl hx⟩
          · split at h
            · exact Or.inl (same (inviteBranch_channels h))
            · split at h
              · rename_i hop
                rcases opBranch_cases h with heq | ⟨g, vs, r, hm, hc, hvs, hget, hauth⟩
                · exact Or.inl (same heq)
                · obtain ⟨out', h', g', o', -⟩ := opBranch_spec hm hc hvs hget hauth
                  have : out' = out := Option.some.inj (h'.symm.trans h)
                  subst this
                  have hchan : authorVoiceChannel p message = some vs.ChannelID := by
                    unfold authorVoiceChannel
                    simp only [hc, hvs]
                  refine Or.inl (shrunk hget g' o' ?_)
                  intro x hx
                  rcases List.mem_append.mp hx with hx | hx
                  · exact Or.inl hx
                  · exact Or.inr ⟨by rw [hbase, hop], hchan, hx⟩
              · split at h
                · rcases deopBranch_cases h with heq | ⟨g, vs, r, hm, hc, hvs, hget, hauth⟩
                  · exact Or.inl (same heq)
                  · obtain ⟨out', h', -, g', o'⟩ := deopBranch_spec hm hc hvs hget hauth
                    have : out' = out := Option.some.inj (h'.symm.trans h)
                    subst this
                    exact Or.inl (shrunk hget g' o'
                      (fun x hx => Or.inl (List.mem_filter.mp hx).1))
                · split at h
                  · exact Or.inl (same (deleteBranch_channels h))
                  · split at h
                    · rcases kickBranch_cases h with heq | ⟨g, vs, r, hm, hc, hvs, hget, hauth⟩
                      · exact Or.inl (same heq)
                      · obtain ⟨out', h', g', o'⟩ := kickBranch_spec hm hc hvs hget hauth
                        have : out' = out := Option.some.inj (h'.symm.trans h)
                        subst this
                        exact Or.inl (shrunk hget g' o'
                          (fun x hx => Or.inl (List.mem_filter.mp hx).1))
                    · cases h
                      exact Or.inl (same rfl)
        · cases h
          exact Or.inl (same rfl)
    · unfold messageCreate at h
      rw [if_neg hbot, hcontent] at h
      simp only [ne_eq, hpfx, not_false_eq_true, if_true] at h
      cases h
      exact Or.inl (same rfl)

/-- The sweep keeps under every key the record it had, or removes the key. -/
theorem sweepLoop_get (delay now : Int) : ∀ (ks : List GoString) (channels : Registry)
    (k : GoString),
    mapGet (sweepLoop delay now ks channels).channels k = mapGet channels k ∨
      mapGet (sweepLoop delay now ks channels).channels k = none := by
  intro ks
  induction ks with
  | nil => intro channels k; exact Or.inl rfl
  | cons k0 rest ih =>
    intro channels k
    simp only [sweepLoop]
    split
    · exact ih channels k
    · split
      · rcases ih (mapDelete channels _) k with h | h
        · rw [mapGet_mapDelete] at h
          split at h
          · exact Or.inr h
          · exact Or.inl h
        · exact Or.inr h
      · exact ih channels k

/-- What any event does to the records: a record found under a key afterwards was under that
key before with the same owner, with `Joined` true if it was true, and with no other new
element in `OPs` than the mentions of an op command whose author sits in that channel; or it
is the record just created under the ID the platform gave, without operators. -/
theorem step_records {cfg : Config} {channels : Registry} {e : Event} {out : Out}
    (h : step cfg channels e = some out) (k : GoString) (r' : voiceChannel)
    (hk : mapGet out.channels k = some r') :
    (∃ r, mapGet channels k = some r ∧ r'.OwnerID = r.OwnerID ∧
      (r.Joined = true → r'.Joined = true) ∧
      ∀ x ∈ r'.OPs, x ∈ r.OPs ∨
        ∃ p m, e = Event.message p m ∧ baseCommandOf cfg m = some (lit "op") ∧
          authorVoiceChannel p m = some k ∧ x ∈ m.Mentions.map User.ID)
    ∨ (∃ p m g n, e = Event.message p m ∧ p.GuildChannelCreate g n = some k ∧ r'.OPs = []) := by
  cases e with
  | message p m =>
    rcases messageCreate_records h k r' hk with ⟨r, h1, h2, h3⟩ | ⟨g, n, h1, -, h2, -⟩
    · left
      refine ⟨r, h1, by rw [h2], fun hj => by rw [h2]; exact hj, ?_⟩
      intro x hx
      rcases h3 x hx with h4 | ⟨h4, h5, h6⟩
      · exact Or.inl h4
      · exact Or.inr ⟨p, m, rfl, h4, h5, h6⟩
    · exact Or.inr ⟨p, m, g, n, rfl, h1, h2⟩
  | voice p order v =>
    left
    have h' : VoiceStateUpdate cfg p order channels v = some out := h
    unfold VoiceStateUpdate at h'
    split at h'
    · cases h'
    · cases h'
      rcases scanChannels_get cfg p.now order _ _ 0 (markJoined v.ChannelID channels) k with hs | hs
      · rw [hs, mapGet_markJoined] at hk
        split at hk
        · cases hget : mapGet channels k with
          | none => rw [hget] at hk; cases hk
          | some r =>
            rw [hget] at hk
            cases hk
            exact ⟨r, rfl, rfl, fun _ => rfl, fun x hx => Or.inl hx⟩
        · exact ⟨r', hk, rfl, fun hj => hj, fun x hx => Or.inl hx⟩
      · rw [hs.1] at hk; cases hk
  | tick now =>
    left
    simp only [step, Option.some.injEq] at h
    subst h
    rcases sweepLoop_get cfg.channelDeleteDelay now (keys channels) channels k with hs | hs
    · rw [sweep, hs] at hk
      exact ⟨r', hk, rfl, fun hj => hj, fun x hx => Or.inl hx⟩
    · rw [sweep, hs] at hk; cases hk

/-- C16, counterexample. A creates "c1", sits in it and sends "!op @A": the record of "c1" then
has its owner A in `OPs`. -/
theorem C16_owner_can_op_themself :
    (run defaultConfig []
        [Event.message (platformOf [] [] "c1" 1000) (messageOf "A" "!new a" []),
         Event.message (platformOf [] [voiceStateOf "A" "c1"] "c2" 1001)
          (messageOf "A" "!op @A" ["A"])]).map (fun out => out.channels)
      = some [recordOf "c1" "A" "PV: a" ["A"] false 1000]
    ∧ (recordOf "c1" "A" "PV: a" ["A"] false 1000).2.OwnerID
        ∈ (recordOf "c1" "A" "PV: a" ["A"] false 1000).2.OPs := by
  decide

/-- One event keeps "no record has its owner in `OPs`", unless it is an op command that
mentions the owner of the channel its author is in. -/
theorem step_owner_not_in_OPs {cfg : Config} {channels : Registry} {e : Event} {out : Out}
    (h : step cfg channels e = some out)
    (hguard : ∀ p m, e = Event.message p m → opMentionsOwner cfg p channels m = false)
    (hinv : ∀ k r, mapGet channels k = some r → r.OwnerID ∉ r.OPs) :
    ∀ k r, mapGet out.channels k = some r → r.OwnerID ∉ r.OPs := by
  intro k r' hk hmem
  rcases step_records h k r' hk with ⟨r, h1, h2, -, h3⟩ | ⟨-, -, -, -, -, -, h1⟩
  · rcases h3 _ hmem with h4 | ⟨p, m, he, hbase, hchan, hment⟩
    · rw [h2] at h4
      exact hinv k r h1 h4
    · have := hguard p m he
      unfold opMentionsOwner at this
      rw [hbase, hchan] at this
      simp only [h1, decide_True, Bool.true_and, decide_eq_false_iff_not] at this
      exact this (h2 ▸ hment)
  · rw [h1] at hmem
    cases hmem

theorem run_owner_not_in_OPs (cfg : Config) : ∀ (events : List Event) (channels : Registry)
    (out : Out), run cfg channels events = some out → ownerOpFree cfg channels events = true →
    (∀ k r, mapGet channels k = some r → r.OwnerID ∉ r.OPs) →
    ∀ k r, mapGet out.channels k = some r → r.OwnerID ∉ r.OPs := by
  intro events
  induction events with
  | nil => intro channels out h _ hinv; simp [run] at h; subst h; exact hinv
  | cons e rest ih =>
    intro channels out h hfree hinv
    simp only [run] at h
    split at h
    · cases h
    · rename_i out1 h1
      split at h
      · cases h
      · rename_i out2 h2
        cases h
        simp only [ownerOpFree, h1, Bool.and_eq_true] at hfree
        refine ih out1.channels out2 h2 hfree.2 (step_owner_not_in_OPs h1 ?_ hinv)
        intro p m he
        subst he
        simpa using hfree.1

/-- C16, amended. In every registry reached from the empty one by chat commands, voice state
updates and sweep ticks among which no op command mentions the owner of the tracked channel
its author is in, no record has its own `OwnerID` in `OPs`. -/
theorem C16_owner_stays_out_of_OPs (cfg : Config) (events : List Event) (out : Out)
    (hrun : run cfg [] events = some out) (hfree : ownerOpFree cfg [] events = true) :
    ∀ e ∈ out.channels, e.2.OwnerID ∉ e.2.OPs := by
  intro e he
  have hwf : WF out.channels := run_WF cfg events [] out hrun (by decide)
  have hget : mapGet out.channels e.1 = some e.2 := mapGet_of_mem hwf.1 he
  exact run_owner_not_in_OPs cfg events [] out hrun hfree
    (fun k r hk => by simp [mapGet] at hk) e.1 e.2 hget

/-- Witness of C16: A creates "c1", joins it and makes B an operator. -/
theorem C16_owner_stays_out_of_OPs_witness :
    run defaultConfig [] ownerOpsFriendEvents = some ownerOpsFriendOut
    ∧ ownerOpFree defaultConfig [] ownerOpsFriendEvents = true
    ∧ ∀ e ∈ ownerOpsFriendOut.channels, e.2.OwnerID ∉ e.2.OPs :=
  ⟨by decide, by decide,
   C16_owner_stays_out_of_OPs defaultConfig ownerOpsFriendEvents ownerOpsFriendOut
     (by decide) (by decide)⟩

/-- C17. One event that does not panic, the platform giving a created channel an ID that is
not yet a key: a record with `Joined` true is afterwards either gone from its key or still
there with `Joined` true. And in a voice state update whose channel is the key of a record
`r`, the record is afterwards gone or is `r` with `Joined` true; it is there, with `Joined`
true, whenever the voice states of the cached guild hold a user in that channel. -/
theorem C17_joined_is_never_reset (cfg : Config) (channels : Registry) (e : Event) (out : Out)
    (hstep : step cfg channels e = some out)
    (hfresh : ∀ p m g n id, e = Event.message p m → p.GuildChannelCreate g n = some id →
      id ∉ keys channels) :
    (∀ k r, mapGet channels k = some r → r.Joined = true →
      mapGet out.channels k = none ∨ ∃ r', mapGet out.channels k = some r' ∧ r'.Joined = true)
    ∧ (∀ p order v r, e = Event.voice p order v → mapGet channels v.ChannelID = some r →
        (mapGet out.channels v.ChannelID = none ∨
          mapGet out.channels v.ChannelID = some { r with Joined := true })
        ∧ (∀ guild, p.guild v.GuildID = some guild →
            getUserCountInVoiceChannel v.ChannelID guild.VoiceStates ≠ 0 →
            mapGet out.channels v.ChannelID = some { r with Joined := true })) := by
  constructor
  · intro k r hget hj
    cases hout : mapGet out.channels k with
    | none => exact Or.inl rfl
    | some r' =>
      right
      refine ⟨r', rfl, ?_⟩
      rcases step_records hstep k r' hout with ⟨r0, h1, -, h2, -⟩ | ⟨p, m, g, n, he, hc, -⟩
      · rw [hget] at h1
        cases h1
        exact h2 hj
      · exact absurd (mem_keys_of_mapGet hget) (hfresh p m g n k he hc)
  · intro p order v r he hget
    subst he
    have h' : VoiceStateUpdate cfg p order channels v = some out := hstep
    unfold VoiceStateUpdate getVoiceChannelsAndStates at h'
    cases hg : p.guild v.GuildID with
    | none => rw [hg] at h'; cases h'
    | some guild =>
      rw [hg] at h'
      have hout := (Option.some.inj h').symm
      have hmark : mapGet (markJoined v.ChannelID channels) v.ChannelID
          = some { r with Joined := true } := by
        rw [mapGet_markJoined, if_pos rfl, hget]
        rfl
      have hscan := scanChannels_get cfg p.now order guild.VoiceStates
        (guild.Channels.filter (fun c => decide (c.ChannelType = lit "voice"))) 0
        (markJoined v.ChannelID channels) v.ChannelID
      subst hout
      constructor
      · rcases hscan with hs | ⟨hs, -⟩
        · right; rw [hs, hmark]
        · left; exact hs
      · intro guild' hg' hcount
        cases hg'
        rcases hscan with hs | ⟨-, c, -, hid, hempty⟩
        · rw [hs, hmark]
        · have hzero := hempty.2.2
          rw [hid] at hzero
          exact absurd hzero hcount

/-- Witness of C17: B joins the fresh channel "c2" while A sits in the joined channel "c1";
both records are then joined. -/
theorem C17_joined_is_never_reset_witness :
    step defaultConfig
        [recordOf "c1" "A" "PV: a" [] true 900, recordOf "c2" "B" "PV: b" [] false 990]
        (Event.voice
          (platformOf [⟨lit "c1", lit "PV: a", lit "voice"⟩, ⟨lit "c2", lit "PV: b", lit "voice"⟩]
            [voiceStateOf "A" "c1", voiceStateOf "B" "c2"] "c9" 1000)
          (fun _ m => m) { GuildID := lit "g", ChannelID := lit "c2", UserID := lit "B" })
      = some ⟨[recordOf "c1" "A" "PV: a" [] true 900, recordOf "c2" "B" "PV: b" [] true 990], []⟩
    ∧ ∀ k r,
        mapGet [recordOf "c1" "A" "PV: a" [] true 900, recordOf "c2" "B" "PV: b" [] false 990] k
          = some r →
        r.Joined = true →
        mapGet [recordOf "c1" "A" "PV: a" [] true 900, recordOf "c2" "B" "PV: b" [] true 990] k
            = none ∨
          ∃ r', mapGet [recordOf "c1" "A" "PV: a" [] true 900,
              recordOf "c2" "B" "PV: b" [] true 990] k = some r' ∧ r'.Joined = true :=
  ⟨by decide,
   (C17_joined_is_never_reset defaultConfig
      [recordOf "c1" "A" "PV: a" [] true 900, recordOf "c2" "B" "PV: b" [] false 990]
      (Event.voice
        (platformOf [⟨lit "c1", lit "PV: a", lit "voice"⟩, ⟨lit "c2", lit "PV: b", lit "voice"⟩]
          [voiceStateOf "A" "c1", voiceStateOf "B" "c2"] "c9" 1000)
        (fun _ m => m) { GuildID := lit "g", ChannelID := lit "c2", UserID := lit "B" })
      ⟨[recordOf "c1" "A" "PV: a" [] true 900, recordOf "c2" "B" "PV: b" [] true 990], []⟩
      (by decide) (fun _ _ _ _ _ he _ => Event.noConfusion he)).1⟩

/-- C18. In a voice state update that does not panic, with `guild` the cached guild of the
event: every call is a delete call for a voice channel of the guild whose name is longer than
the voice prefix, begins with it, and which no voice state of the snapshot is in; every key
that leaves the registry is the ID of such a channel; so for an ID with at least one voice
state, and for a guild channel (of an ID no other guild channel has) whose name does not
carry the prefix, no delete call is issued and a record under that ID stays in the registry. -/
theorem C18_voice_handler_deletes_only_empty_private (cfg : Config) (p : Platform)
    (order : Nat → Registry → Registry) (channels : Registry) (v : VoiceStateUpdateEvent)
    (out : Out) (guild : Guild)
    (hguild : p.guild v.GuildID = some guild)
    (h : VoiceStateUpdate cfg p order channels v = some out) :
    (∀ call ∈ out.calls, ∃ c ∈ guild.Channels, c.ChannelType = lit "voice" ∧
        call = Call.ChannelDelete c.ID ∧ emptyPrivate cfg guild.VoiceStates c)
    ∧ (∀ k ∈ keys channels, k ∉ keys out.channels →
        ∃ c ∈ guild.Channels, c.ChannelType = lit "voice" ∧ c.ID = k ∧
          emptyPrivate cfg guild.VoiceStates c)
    ∧ (∀ id, getUserCountInVoiceChannel id guild.VoiceStates ≠ 0 →
        Call.ChannelDelete id ∉ out.calls ∧ (id ∈ keys channels → id ∈ keys out.channels))
    ∧ (∀ c ∈ guild.Channels, (∀ c' ∈ guild.Channels, c'.ID = c.ID → c' = c) →
        ¬(cfg.voicePrefix.length < c.Name.length ∧
          c.Name.take cfg.voicePrefix.length = cfg.voicePrefix) →
        Call.ChannelDelete c.ID ∉ out.calls ∧ (c.ID ∈ keys channels → c.ID ∈ keys out.channels)) := by
  have hout : out = scanChannels cfg p.now order guild.VoiceStates 0
      (guild.Channels.filter (fun c => decide (c.ChannelType = lit "voice")))
      (markJoined v.ChannelID channels) := by
    unfold VoiceStateUpdate getVoiceChannelsAndStates at h
    rw [hguild] at h
    exact (Option.some.inj h).symm
  have hvoice : ∀ c, c ∈ guild.Channels.filter (fun c => decide (c.ChannelType = lit "voice")) →
      c ∈ guild.Channels ∧ c.ChannelType = lit "voice" := by
    intro c hc
    have := List.mem_filter.mp hc
    exact ⟨this.1, of_decide_eq_true this.2⟩
  have hcalls : ∀ call ∈ out.calls, ∃ c ∈ guild.Channels, c.ChannelType = lit "voice" ∧
      call = Call.ChannelDelete c.ID ∧ emptyPrivate cfg guild.VoiceStates c := by
    intro call hcall
    rw [hout] at hcall
    obtain ⟨c, hc, h1, h2⟩ := scanChannels_calls cfg p.now order guild.VoiceStates _ _ _ call hcall
    exact ⟨c, (hvoice c hc).1, (hvoice c hc).2, h1, h2⟩
  have hkeys : ∀ k ∈ keys channels, k ∉ keys out.channels →
      ∃ c ∈ guild.Channels, c.ChannelType = lit "voice" ∧ c.ID = k ∧
        emptyPrivate cfg guild.VoiceStates c := by
    intro k hk hnk
    have hsome : mapGet (markJoined v.ChannelID channels) k ≠ none := by
      rw [mapGet_markJoined]
      have := (mem_keys_iff_mapGet channels k).mp hk
      split
      · cases hget : mapGet channels k with
        | none => exact absurd hget this
        | some r => simp
      · exact this
    have hnone : mapGet out.channels k = none := by
      by_contra hne
      exact hnk ((mem_keys_iff_mapGet out.channels k).mpr hne)
    rw [hout] at hnone
    rcases scanChannels_get cfg p.now order guild.VoiceStates _ 0
      (markJoined v.ChannelID channels) k with hs | ⟨-, c, hc, h1, h2⟩
    · rw [hs] at hnone; exact absurd hnone hsome
    · exact ⟨c, (hvoice c hc).1, (hvoice c hc).2, h1, h2⟩
  refine ⟨hcalls, hkeys, ?_, ?_⟩
  · intro id hcount
    constructor
    · intro hcall
      obtain ⟨c, -, -, h1, h2⟩ := hcalls _ hcall
      cases h1
      exact hcount h2.2.2
    · intro hk
      by_contra hnk
      obtain ⟨c, -, -, h1, h2⟩ := hkeys id hk hnk
      rw [← h1] at hcount
      exact hcount h2.2.2
  · intro c hc huniq hnp
    constructor
    · intro hcall
      obtain ⟨c', hc', -, h1, h2⟩ := hcalls _ hcall
      cases huniq c' hc' (Call.ChannelDelete.inj h1).symm
      exact hnp ⟨h2.1, h2.2.1⟩
    · intro hk
      by_contra hnk
      obtain ⟨c', hc', -, h1, h2⟩ := hkeys c.ID hk hnk
      cases huniq c' hc' h1
      exact hnp ⟨h2.1, h2.2.1⟩

/-- Witness of C18: A has left the joined channel "c1" for "v1"; the handler deletes "c1" and
nothing else. -/
theorem C18_voice_handler_deletes_only_empty_private_witness :
    VoiceStateUpdate defaultConfig
        { channelGuild := fun _ => some (lit "g"), guild := fun _ => some threeChannelGuild,
          GuildChannelCreate := fun _ _ => none, now := 1000 }
        (fun _ m => m)
        [recordOf "c1" "A" "PV: a" [] true 900, recordOf "c2" "B" "PV: b" [] true 950]
        { GuildID := lit "g", ChannelID := lit "v1", UserID := lit "A" }
      = some ⟨[recordOf "c2" "B" "PV: b" [] true 950], [Call.ChannelDelete (lit "c1")]⟩
    ∧ ∀ call ∈ [Call.ChannelDelete (lit "c1")],
        ∃ c ∈ threeChannelGuild.Channels, c.ChannelType = lit "voice" ∧
          call = Call.ChannelDelete c.ID ∧
          emptyPrivate defaultConfig threeChannelGuild.VoiceStates c :=
  ⟨by decide,
   (C18_voice_handler_deletes_only_empty_private defaultConfig
      { channelGuild := fun _ => some (lit "g"), guild := fun _ => some threeChannelGuild,
        GuildChannelCreate := fun _ _ => none, now := 1000 }
      (fun _ m => m)
      [recordOf "c1" "A" "PV: a" [] true 900, recordOf "c2" "B" "PV: b" [] true 950]
      { GuildID := lit "g", ChannelID := lit "v1", UserID := lit "A" }
      ⟨[recordOf "c2" "B" "PV: b" [] true 950], [Call.ChannelDelete (lit "c1")]⟩
      threeChannelGuild rfl (by decide)).1⟩

end PrivateVoiceBot
